import Mathlib

/-!
Verification development for the zawgl graph database.

This file gives a shallow embedding of the parts of the code that the
specification's claims are about:

* the VF2 matcher base state and its push/pop operations
  (src/lib/zawgl-core/src/matcher/vf2/state.rs, push_state_0 / pop_state_0
  and the identical push_state_1 / pop_state_1, modelled once generically),
* the VF2 feasibility check (State::feasible and its helpers),
* the B+-tree node-record pool and free-cell iterator
  (src/lib/zawgl-core/src/repository/index/store/pool.rs),
* the record codec of the early orange-db-core variant
  (src/lib/orange-db-core/src/repository/index/node_store.rs),
* the lazy graph proxy (src/lib/zawgl-core/src/graph_engine/model.rs).

Rust HashMaps that are used only through insert/remove/get/contains are
modelled as functions into Option; usize counters are modelled as Nat
(Nat subtraction is truncating; all proved statements carry hypotheses
under which no underflow occurs).  Fallible Rust functions returning
Option are modelled as Option-valued Lean functions.
-/

namespace S2P

/-- Function-backed finite map update, the model of HashMap insert/remove. -/
def upd {V : Type} {α : Type} [DecidableEq V] (f : V → Option α) (x : V) (v : Option α) :
    V → Option α :=
  fun y => if y = x then v else f y

namespace VF2

/-- A directed graph presented by adjacency lists, the interface that
push_state_0/pop_state_0 use on the pattern graph (GraphTrait: in_edges,
out_edges, get_source_index, get_target_index). -/
structure Graph (V E : Type) where
  in_edges : V → List E
  out_edges : V → List E
  src : E → V
  tgt : E → V

/-- The per-side VF2 matcher state, struct BaseState of matcher/vf2.
Maps are HashMaps in the source, modelled as functions into Option. -/
@[ext]
structure BaseState (V W : Type) where
  term_in_count : Nat
  term_out_count : Nat
  term_both_count : Nat
  core_count : Nat
  core_map : V → Option W
  in_map : V → Option Nat
  out_map : V → Option Nat

variable {V W E : Type} [DecidableEq V]

/-- BaseState::new(): all counters zero, all maps empty. -/
def BaseState.init : BaseState V W :=
  { term_in_count := 0, term_out_count := 0, term_both_count := 0, core_count := 0
    core_map := fun _ => none, in_map := fun _ => none, out_map := fun _ => none }

/-- One in-map insertion step of push_state_0: the body run for v0 itself and
for each in-edge ancestor (state.rs lines 40-46 and 55-64). -/
def pushIn (s : BaseState V W) (x : V) : BaseState V W :=
  if s.in_map x = none then
    { s with
      in_map := upd s.in_map x (some s.core_count)
      term_in_count := s.term_in_count + 1
      term_both_count :=
        if (s.out_map x).isSome then s.term_both_count + 1 else s.term_both_count }
  else s

/-- One out-map insertion step of push_state_0 (lines 47-53 and 65-74). -/
def pushOut (s : BaseState V W) (x : V) : BaseState V W :=
  if s.out_map x = none then
    { s with
      out_map := upd s.out_map x (some s.core_count)
      term_out_count := s.term_out_count + 1
      term_both_count :=
        if (s.in_map x).isSome then s.term_both_count + 1 else s.term_both_count }
  else s

/-- push_state_0 (state.rs lines 37-75); push_state_1 is textually identical
with the two sides swapped, and BaseState::push of the old variant
src/src/matcher/vf2/base_state.rs (lines 19-57) performs the same increment,
insertions and edge loops, so one generic definition covers all three. -/
def push_state (g : Graph V E) (s : BaseState V W) (v0 : V) (v1 : W) : BaseState V W :=
  let s := { s with core_count := s.core_count + 1
                    core_map := upd s.core_map v0 (some v1) }
  let s := pushIn s v0
  let s := pushOut s v0
  let s := (g.in_edges v0).foldl (fun t e => pushIn t (g.src e)) s
  (g.out_edges v0).foldl (fun t e => pushOut t (g.tgt e)) s

/-- One in-map removal step of pop_state_0 (state.rs lines 82-92 and 94-107). -/
def popIn (s : BaseState V W) (x : V) : BaseState V W :=
  match s.in_map x with
  | some d =>
    if d = s.core_count then
      { s with
        in_map := upd s.in_map x none
        term_in_count := s.term_in_count - 1
        term_both_count :=
          if (s.out_map x).isSome then
            if 0 < s.term_both_count then s.term_both_count - 1 else s.term_both_count
          else s.term_both_count }
    else s
  | none => s

/-- One out-map removal step of pop_state_0 (lines 109-119 and 121-134). -/
def popOut (s : BaseState V W) (x : V) : BaseState V W :=
  match s.out_map x with
  | some d =>
    if d = s.core_count then
      { s with
        out_map := upd s.out_map x none
        term_out_count := s.term_out_count - 1
        term_both_count :=
          if (s.in_map x).isSome then
            if 0 < s.term_both_count then s.term_both_count - 1 else s.term_both_count
          else s.term_both_count }
    else s
  | none => s

/-- pop_state_0 (state.rs lines 77-139); pop_state_1 is textually identical. -/
def pop_state (g : Graph V E) (s : BaseState V W) (v0 : V) : BaseState V W :=
  if s.core_count = 0 then s
  else
    let s := popIn s v0
    let s := (g.in_edges v0).foldl (fun t e => popIn t (g.src e)) s
    let s := popOut s v0
    let s := (g.out_edges v0).foldl (fun t e => popOut t (g.tgt e)) s
    { s with core_map := upd s.core_map v0 none, core_count := s.core_count - 1 }

/-- BaseState::pop of the old variant src/src/matcher/vf2/base_state.rs
(lines 59-113).  It differs from pop_state_0: it writes depth 0 instead of
removing entries, has no term_both_count underflow guards, and its out-edge
loop reads in_map where out_map is intended (line 99). -/
def pop_old (g : Graph V V) (s : BaseState V V) (v0 : V) : BaseState V V :=
  if s.core_count = 0 then s
  else
    let step_in : BaseState V V → V → BaseState V V := fun t x =>
      match t.in_map x with
      | some d =>
        if d = t.core_count then
          { t with
            in_map := upd t.in_map x (some 0)
            term_in_count := t.term_in_count - 1
            term_both_count :=
              if (t.out_map x).isSome then t.term_both_count - 1 else t.term_both_count }
        else t
      | none => t
    let step_out_v0 : BaseState V V → V → BaseState V V := fun t x =>
      match t.out_map x with
      | some d =>
        if d = t.core_count then
          { t with
            out_map := upd t.out_map x (some 0)
            term_out_count := t.term_out_count - 1
            term_both_count :=
              if (t.in_map x).isSome then t.term_both_count - 1 else t.term_both_count }
        else t
      | none => t
    let step_out_edge : BaseState V V → V → BaseState V V := fun t x =>
      match t.in_map x with
      | some d =>
        if d = t.core_count then
          { t with
            out_map := upd t.out_map x (some 0)
            term_out_count := t.term_out_count - 1
            term_both_count :=
              if (t.in_map x).isSome then t.term_both_count - 1 else t.term_both_count }
        else t
      | none => t
    let s := step_in s v0
    let s := (g.in_edges v0).foldl (fun t e => step_in t (g.src e)) s
    let s := step_out_v0 s v0
    let s := (g.out_edges v0).foldl (fun t e => step_out_edge t (g.tgt e)) s
    { s with core_map := upd s.core_map v0 none, core_count := s.core_count - 1 }

/-- Swapping the in/out structure of a base state.  pushOut/popOut are the
exact mirror images of pushIn/popIn under this involution, which lets every
lemma about the in-side be reused on the out-side. -/
def swapBS (s : BaseState V W) : BaseState V W :=
  { s with in_map := s.out_map, out_map := s.in_map
           term_in_count := s.term_out_count, term_out_count := s.term_in_count }

/-- Overlay of a finite set of vertices, all at depth c, over a base map:
the shape of in_map/out_map after the insertion phases of push_state. -/
def ovl (A : Finset V) (c : Nat) (m : V → Option Nat) : V → Option Nat :=
  fun x => if x ∈ A then some c else m x

/-- The vertices of a list that are new with respect to a base map: these are
exactly the ones a push_state insertion phase adds. -/
def newF (base : V → Option Nat) (L : List V) : Finset V :=
  L.toFinset.filter (fun x => base x = none)

/-- The base states that occur during matching: the initial empty state, and
push_state applied to a not-yet-mapped pattern vertex (the matcher's
candidate rule only pushes vertices outside the core; the matching pop
returns to the previous state by theorem push_pop_restores). -/
inductive Reachable (g : Graph V E) : BaseState V W → Prop
  | init : Reachable g BaseState.init
  | push (s : BaseState V W) (v0 : V) (v1 : W) :
      Reachable g s → s.core_map v0 = none → Reachable g (push_state g s v0 v1)

/-- BaseState::in_core. -/
def BaseState.in_core (s : BaseState V W) (x : V) : Bool :=
  (s.core_map x).isSome

/-- BaseState::core. -/
def BaseState.core (s : BaseState V W) (x : V) : Option W :=
  s.core_map x

/-- BaseState::in_depth (0 when absent, as in the source). -/
def BaseState.in_depth (s : BaseState V W) (x : V) : Nat :=
  (s.in_map x).getD 0

/-- BaseState::out_depth. -/
def BaseState.out_depth (s : BaseState V W) (x : V) : Nat :=
  (s.out_map x).getD 0

/-- Modelled from the spec: the pattern graph (PropertyGraph) is fully
resident, so its node and relationship lookups are total (sections 4.5 and
4.6 of the spec); the concrete PropertyGraph type is not under src/. -/
structure PatternGraph (V E NT RT : Type) where
  in_edges : V → List E
  out_edges : V → List E
  src : E → V
  tgt : E → V
  get_node_ref : V → NT
  get_relationship_ref : E → RT

/-- The target-graph interface that State::feasible uses on the GraphProxy:
adjacency iteration plus get_node_ref / get_relationship_ref, both of which
may return nothing when the repository cannot resolve the id
(graph_engine/model.rs).  The lazily materializing proxy is modelled by the
pure view it presents: iteration answers are store-determined and
deterministic. -/
structure TargetGraph (W F NT RT : Type) where
  in_edges : W → List F
  out_edges : W → List F
  src : F → W
  tgt : F → W
  get_node_ref : W → Option NT
  get_relationship_ref : F → Option RT

/-- The struct State of matcher/vf2/state.rs restricted to what feasible
uses. -/
structure MatchState (V E W F NT RT : Type) where
  graph_0 : PatternGraph V E NT RT
  graph_1 : TargetGraph W F NT RT
  vertex_comp : NT → NT → Bool
  edge_comp : RT → RT → Bool
  base_state_0 : BaseState V W
  base_state_1 : BaseState W V

variable {F NT RT : Type} [DecidableEq W] [DecidableEq F]

/-- State::edge_exists_1 (state.rs lines 393-405), as the loop over the
candidate out-edges of the source.  The third component reports which target
edge was inserted into matched_edge_set on success (the set insertion at
line 399), so that acceptances can be stated; the first two components are
exactly the source's return value and set. -/
def edge_exists_1_loop (st : MatchState V E W F NT RT) (r0 : RT) (target : W)
    (mset : Finset F) : List F → Option (Bool × Finset F × Option F)
  | [] => some (false, mset, none)
  | f :: rest =>
    if st.graph_1.tgt f = target ∧ f ∉ mset then
      match st.graph_1.get_relationship_ref f with
      | none => none
      | some r =>
        if st.edge_comp r0 r then some (true, insert f mset, some f)
        else edge_exists_1_loop st r0 target mset rest
    else edge_exists_1_loop st r0 target mset rest

/-- State::edge_exists_1 proper: iterate the out-edges of the source. -/
def edge_exists_1 (st : MatchState V E W F NT RT) (source target : W) (r0 : RT)
    (mset : Finset F) : Option (Bool × Finset F × Option F) :=
  edge_exists_1_loop st r0 target mset (st.graph_1.out_edges source)

/-- State::inc_counters_match_edge_0 (state.rs lines 345-377).  Counters are
the i32 locals term_in0_count / term_out0_count / rest0_count, only ever
incremented, modelled as Nat. -/
def inc_counters_match_edge_0 (st : MatchState V E W F NT RT) (is_inbound : Bool)
    (cnt : Nat × Nat × Nat) (v_new v_adj : V) (w_new : W) (edge : E)
    (mset : Finset F) : Option (Bool × (Nat × Nat × Nat) × Finset F × Option F) :=
  if st.base_state_0.in_core v_adj || v_new = v_adj then
    let w : W :=
      if v_adj ≠ v_new then
        match st.base_state_0.core v_adj with
        | some ws => ws
        | none => w_new
      else w_new
    let r0 := st.graph_0.get_relationship_ref edge
    let res := if is_inbound then edge_exists_1 st w w_new r0 mset
               else edge_exists_1 st w_new w r0 mset
    match res with
    | none => none
    | some (ok, mset2, acc) => some (ok, cnt, mset2, acc)
  else
    let c1 := if 0 < st.base_state_0.in_depth v_adj then cnt.1 + 1 else cnt.1
    let c2 := if 0 < st.base_state_0.out_depth v_adj then cnt.2.1 + 1 else cnt.2.1
    let c3 := if st.base_state_0.in_depth v_adj = 0 ∧ st.base_state_0.out_depth v_adj = 0
              then cnt.2.2 + 1 else cnt.2.2
    some (true, (c1, c2, c3), mset, none)

/-- The in-edge loop of State::feasible (state.rs lines 296-305): one fresh
matched_edge_set for the whole loop, threaded through the edge checks.  The
trace accumulates the accepted (pattern edge, target edge) pairs. -/
def feas_loop (st : MatchState V E W F NT RT) (is_inbound : Bool) (v_new : V)
    (w_new : W) : List E → (Nat × Nat × Nat) → Finset F → List (E × F) →
    Option (Bool × (Nat × Nat × Nat) × Finset F × List (E × F))
  | [], cnt, mset, tr => some (true, cnt, mset, tr)
  | e :: rest, cnt, mset, tr =>
    let v_adj := if is_inbound then st.graph_0.src e else st.graph_0.tgt e
    match inc_counters_match_edge_0 st is_inbound cnt v_new v_adj w_new e mset with
    | none => none
    | some (ok, cnt2, mset2, acc) =>
      if ok then
        feas_loop st is_inbound v_new w_new rest cnt2 mset2
          (tr ++ (match acc with | some f => [(e, f)] | none => []))
      else some (false, cnt2, mset2, tr)

/-- State::inc_counters_match_edge_1 (state.rs lines 407-422): pure counter
bookkeeping on the target side; the source's Option return is constantly
Some(true), so the callers' early exit there is dead code. -/
def inc_counters_match_edge_1 (st : MatchState V E W F NT RT)
    (cnt : Nat × Nat × Nat) (w_new w_adj : W) : Nat × Nat × Nat :=
  if st.base_state_1.in_core w_adj || w_new = w_adj then cnt
  else
    let c1 := if 0 < st.base_state_1.in_depth w_adj then cnt.1 + 1 else cnt.1
    let c2 := if 0 < st.base_state_1.out_depth w_adj then cnt.2.1 + 1 else cnt.2.1
    let c3 := if st.base_state_1.in_depth w_adj = 0 ∧ st.base_state_1.out_depth w_adj = 0
              then cnt.2.2 + 1 else cnt.2.2
    (c1, c2, c3)

/-- State::feasible (state.rs lines 285-343), additionally reporting the
accepted (pattern edge, target edge) pairs of the in-edge loop and of the
out-edge loop. -/
def feasible_with_traces (st : MatchState V E W F NT RT) (v_new : V) (w_new : W) :
    Option (Bool × List (E × F) × List (E × F)) :=
  match st.graph_1.get_node_ref w_new with
  | none => none
  | some w =>
    let v := st.graph_0.get_node_ref v_new
    if ¬ st.vertex_comp v w then some (false, [], [])
    else
      match feas_loop st true v_new w_new (st.graph_0.in_edges v_new) (0, 0, 0) ∅ [] with
      | none => none
      | some (false, _, _, trIn) => some (false, trIn, [])
      | some (true, cntA, _, trIn) =>
        match feas_loop st false v_new w_new (st.graph_0.out_edges v_new) cntA ∅ [] with
        | none => none
        | some (false, _, _, trOut) => some (false, trIn, trOut)
        | some (true, cnt0, _, trOut) =>
          let cnt1a := (st.graph_1.in_edges w_new).foldl
            (fun c f => inc_counters_match_edge_1 st c w_new (st.graph_1.src f)) (0, 0, 0)
          let cnt1 := (st.graph_1.out_edges w_new).foldl
            (fun c f => inc_counters_match_edge_1 st c w_new (st.graph_1.tgt f)) cnt1a
          some (decide (cnt0.1 ≤ cnt1.1 ∧ cnt0.2.1 ≤ cnt1.2.1 ∧ cnt0.2.2 ≤ cnt1.2.2),
            trIn, trOut)

/-- State::feasible's Option-of-bool result exactly as in the source. -/
def feasible (st : MatchState V E W F NT RT) (v_new : V) (w_new : W) : Option Bool :=
  (feasible_with_traces st v_new w_new).map (fun r => r.1)

/-- Concrete feasibility instance: pattern vertex 0 with one self-loop
(edge 0), target vertex 7 with one self-loop (edge 3) whose relationship the
proxy cannot resolve (get_relationship_ref = none). -/
def stC4 : MatchState Nat Nat Nat Nat Unit Unit where
  graph_0 :=
    { in_edges := fun v => if v = 0 then [0] else []
      out_edges := fun v => if v = 0 then [0] else []
      src := fun _ => 0, tgt := fun _ => 0
      get_node_ref := fun _ => (), get_relationship_ref := fun _ => () }
  graph_1 :=
    { in_edges := fun w => if w = 7 then [3] else []
      out_edges := fun w => if w = 7 then [3] else []
      src := fun _ => 7, tgt := fun _ => 7
      get_node_ref := fun w => if w = 7 then some () else none
      get_relationship_ref := fun _ => none }
  vertex_comp := fun _ _ => true
  edge_comp := fun _ _ => true
  base_state_0 := BaseState.init
  base_state_1 := BaseState.init

/-- Concrete feasibility instance: pattern vertex 0 with two parallel
self-loops (edges 0 and 1) whose in-chain and out-chain orders differ, and
target vertex 7 with two resolvable self-loops (edges 3 and 4). -/
def stC5 : MatchState Nat Nat Nat Nat Unit Unit where
  graph_0 :=
    { in_edges := fun v => if v = 0 then [0, 1] else []
      out_edges := fun v => if v = 0 then [1, 0] else []
      src := fun _ => 0, tgt := fun _ => 0
      get_node_ref := fun _ => (), get_relationship_ref := fun _ => () }
  graph_1 :=
    { in_edges := fun w => if w = 7 then [3, 4] else []
      out_edges := fun w => if w = 7 then [3, 4] else []
      src := fun _ => 7, tgt := fun _ => 7
      get_node_ref := fun w => if w = 7 then some () else none
      get_relationship_ref := fun f => if f = 3 ∨ f = 4 then some () else none }
  vertex_comp := fun _ _ => true
  edge_comp := fun _ _ => true
  base_state_0 := BaseState.init
  base_state_1 := BaseState.init

end VF2

namespace Pool

/-- Positional list lookup, the model of Rust slice indexing. -/
def listGet {α : Type} : List α → Nat → Option α
  | [], _ => none
  | a :: _, 0 => some a
  | _ :: rest, n + 1 => listGet rest n

/-- Association-list lookup (the model of HashMap get for iterable maps). -/
def lookupA {α : Type} : List (Nat × α) → Nat → Option α
  | [], _ => none
  | (k, v) :: rest, k2 => if k2 = k then some v else lookupA rest k2

/-- Association-list insert-or-replace (HashMap insert). -/
def insertA {α : Type} : List (Nat × α) → Nat → α → List (Nat × α)
  | [], k, v => [(k, v)]
  | (k, v) :: rest, k2, v2 =>
    if k2 = k then (k, v2) :: rest else (k, v) :: insertA rest k2 v2

/-- Modelled from the spec: the B+-tree cell record as the pool code uses it
(records.rs is not under src/).  Header bit flags become Bools; the overflow
location is a 64-bit node id plus a 32-bit cell index (spec section 3). -/
structure CellRecord where
  active : Bool
  has_overflow : Bool
  node_ptr : Nat
  overflow_cell_ptr : Nat
deriving DecidableEq, Repr

/-- CellRecord::is_active. -/
def CellRecord.is_active (c : CellRecord) : Bool := c.active

/-- CellRecord::set_inactive clears the ACTIVE flag. -/
def CellRecord.set_inactive (c : CellRecord) : CellRecord := { c with active := false }

/-- Modelled from the spec: the next-cell location of an overflow chain is
the cell's 64-bit node id plus 32-bit cell index; a node id of 0 terminates
the chain (spec sections 3 and 8). -/
def CellRecord.get_next_cell_location (c : CellRecord) : Nat × Nat :=
  (c.node_ptr, c.overflow_cell_ptr)

/-- A fresh, inactive cell slot. -/
def CellRecord.fresh : CellRecord := ⟨false, false, 0, 0⟩

/-- Modelled from the spec: the B+-tree node record as the pool code uses it
(spec section 3): flags, NB_CELL cell slots, and the next pointer reused as
the next-free-cell-storage-node link for overflow-storage nodes. -/
structure BNodeRecord where
  is_overflow_node : Bool
  cells : List CellRecord
  next_free_cells_node_ptr : Nat
deriving DecidableEq, Repr

/-- BNodeRecord::new(): NB_CELL fresh slots, no flags, nil next pointer.
NB_CELL is a configuration constant not under src/, passed as nbCell. -/
def BNodeRecord.new (nbCell : Nat) : BNodeRecord :=
  ⟨false, List.replicate nbCell CellRecord.fresh, 0⟩

/-- BNodeRecord::set_overflow_node. -/
def BNodeRecord.set_overflow_node (r : BNodeRecord) : BNodeRecord :=
  { r with is_overflow_node := true }

/-- BNodeRecord::is_full: no inactive slot remains (the free-cell iterator
scans for an inactive slot, spec section 4.2). -/
def BNodeRecord.is_full (r : BNodeRecord) : Bool :=
  r.cells.all (fun c => c.is_active)

/-- Modelled from the spec: the records manager (component C1, external):
fixed-size record IO with a reserved header region holding the root pointer
at bytes [0,8) and the free-list head at bytes [8,16), exposing
load/create/save/is_empty (spec sections 2 and 6).  Ids start at 1; 0 is the
nil sentinel used by the chain code. -/
structure RecordsManager where
  store : List (Nat × BNodeRecord)
  next_id : Nat
  header_root : Nat
  header_free_list : Nat
deriving DecidableEq, Repr

def RecordsManager.load (m : RecordsManager) (id : Nat) : Option BNodeRecord :=
  lookupA m.store id

def RecordsManager.save (m : RecordsManager) (id : Nat) (r : BNodeRecord) :
    RecordsManager :=
  { m with store := insertA m.store id r }

/-- create allocates a fresh id and persists the record at once (the manager
is written immediately, not buffered). -/
def RecordsManager.create (m : RecordsManager) (r : BNodeRecord) :
    Nat × RecordsManager :=
  (m.next_id, { m with store := insertA m.store m.next_id r, next_id := m.next_id + 1 })

def RecordsManager.is_empty (m : RecordsManager) : Bool :=
  m.store.isEmpty

/-- BTreeNodeStore::set_root_node_ptr (store/mod.rs lines 491-493): writes
the root pointer straight into the manager's header page. -/
def RecordsManager.set_root_node_ptr (m : RecordsManager) (id : Nat) :
    RecordsManager :=
  { m with header_root := id }

/-- struct NodeRecordPool (pool.rs lines 31-34): the write-back cache of
node records plus the records manager it wraps. -/
structure NodeRecordPool where
  records : List (Nat × BNodeRecord)
  records_manager : RecordsManager
deriving DecidableEq, Repr

/-- The shared body of load_node_record_clone / _ref / _mut (pool.rs lines
46-72): on a cache miss, read the record from the manager and insert it into
the cache; the manager itself is only read. -/
def NodeRecordPool.load_node_record (p : NodeRecordPool) (id : Nat) :
    NodeRecordPool × Option BNodeRecord :=
  match lookupA p.records id with
  | some r => (p, some r)
  | none =>
    match p.records_manager.load id with
    | none => (p, none)
    | some r => ({ p with records := insertA p.records id r }, some r)

/-- A cell write through load_node_record_mut, the pattern used by
insert_cell_in_free_slot (pool.rs line 95) and by the store code: the
mutation lands in the cached record only. -/
def NodeRecordPool.write_cell (p : NodeRecordPool) (id idx : Nat)
    (c : CellRecord) : NodeRecordPool × Bool :=
  match p.load_node_record id with
  | (p2, some r) =>
    ({ p2 with records := insertA p2.records id { r with cells := r.cells.set idx c } },
      true)
  | (p2, none) => (p2, false)

/-- NodeRecordPool::create_node_record (pool.rs lines 74-78): allocates the
id through the manager (which persists the record at once) and caches it. -/
def NodeRecordPool.create_node_record (p : NodeRecordPool) (r : BNodeRecord) :
    NodeRecordPool × Nat :=
  let idm := p.records_manager.create r
  ({ records := insertA p.records idm.1 r, records_manager := idm.2 }, idm.1)

/-- NodeRecordPool::save_all_node_records (pool.rs lines 80-85): write every
cached record to the manager. -/
def NodeRecordPool.save_all_node_records (p : NodeRecordPool) : NodeRecordPool :=
  { p with records_manager :=
      p.records.foldl (fun m kv => m.save kv.1 kv.2) p.records_manager }

/-- NodeRecordPool::disable_cell_records (pool.rs lines 99-108).  The source
copies the cell out of the cached record (CellRecord is Copy), calls
set_inactive on the copy, and follows its next-cell location; the cached
record is never written back.  The while loop is modelled with fuel; a run
that returns some () corresponds to a terminating Rust run. -/
def NodeRecordPool.disable_cell_records (p : NodeRecordPool) :
    Nat → Nat × Nat → NodeRecordPool × Option Unit
  | 0, _ => (p, none)
  | _ + 1, (0, _) => (p, some ())
  | fuel + 1, (nodeId, cellIdx) =>
    match p.load_node_record nodeId with
    | (p2, none) => (p2, none)
    | (p2, some nr) =>
      match listGet nr.cells cellIdx with
      | none => (p2, none)
      | some c => p2.disable_cell_records fuel c.set_inactive.get_next_cell_location

/-- FreeCellIterator::set_first_free_list_node_ptr (pool.rs lines 179-181):
writes the free-list head straight into the manager's header page. -/
def NodeRecordPool.set_first_free_list_node_ptr (p : NodeRecordPool) (id : Nat) :
    NodeRecordPool :=
  { p with records_manager := { p.records_manager with header_free_list := id } }

/-- FreeCellIterator::get_first_free_list_node_ptr. -/
def NodeRecordPool.get_first_free_list_node_ptr (p : NodeRecordPool) : Nat :=
  p.records_manager.header_free_list

/-- FreeCellIterator::create_overflow_node (pool.rs lines 166-171). -/
def NodeRecordPool.create_overflow_node (nbCell : Nat) (p : NodeRecordPool) :
    NodeRecordPool × Nat :=
  p.create_node_record ((BNodeRecord.new nbCell).set_overflow_node)

/-- FreeCellIterator::load_or_create_free_cells_overflow_node (pool.rs lines
132-163).  The recursion follows the free-list chain (fuel-bounded); a new
overflow-storage node is created only when the records set is empty or the
current head pointer is zero. -/
def NodeRecordPool.load_or_create_free_cells_overflow_node (nbCell : Nat) :
    Nat → NodeRecordPool → NodeRecordPool × Option Nat
  | 0, p => (p, none)
  | fuel + 1, p =>
    if p.records_manager.is_empty then
      let pi := p.create_overflow_node nbCell
      ((pi.1.set_first_free_list_node_ptr pi.2), some pi.2)
    else
      let ptr := p.get_first_free_list_node_ptr
      if ptr = 0 then
        let pi := p.create_overflow_node nbCell
        ((pi.1.set_first_free_list_node_ptr pi.2), some pi.2)
      else
        let pr := p.load_node_record ptr
        let nextPtr : Option Nat :=
          match pr.2 with
          | some r => if r.is_full then some r.next_free_cells_node_ptr else none
          | none => none
        match nextPtr with
        | some nxt =>
          NodeRecordPool.load_or_create_free_cells_overflow_node nbCell fuel
            (pr.1.set_first_free_list_node_ptr nxt)
        | none => (pr.1, some ptr)

/-- The cell scan of FreeCellIterator::next (pool.rs lines 189-195): walk
the slots with a running cell_id and return the first inactive one. -/
def scan_free_cell : List CellRecord → Nat → Option Nat
  | [], _ => none
  | c :: rest, i => if ! c.is_active then some i else scan_free_cell rest (i + 1)

/-- FreeCellIterator::next (pool.rs lines 184-199): obtain a head node with
free cells, then scan it for the first inactive slot. -/
def NodeRecordPool.free_cell_iter_next (nbCell fuel : Nat) (p : NodeRecordPool) :
    NodeRecordPool × Option (Nat × Nat) :=
  match p.load_or_create_free_cells_overflow_node nbCell fuel with
  | (p1, none) => (p1, none)
  | (p1, some id) =>
    match p1.load_node_record id with
    | (p2, none) => (p2, none)
    | (p2, some node) =>
      match scan_free_cell node.cells 0 with
      | some cid => (p2, some (id, cid))
      | none => (p2, none)

/-- The pool operations whose mutations are pure cache operations: loads
(all three variants), cell writes through load_node_record_mut, and
disable_cell_records. -/
inductive BufferedOp where
  | load (id : Nat)
  | writeCell (id idx : Nat) (c : CellRecord)
  | disable (fuel : Nat) (loc : Nat × Nat)

def runBufferedOp (p : NodeRecordPool) : BufferedOp → NodeRecordPool
  | .load id => (p.load_node_record id).1
  | .writeCell id idx c => (p.write_cell id idx c).1
  | .disable fuel loc => (p.disable_cell_records fuel loc).1

def runBufferedOps (p : NodeRecordPool) (ops : List BufferedOp) : NodeRecordPool :=
  ops.foldl runBufferedOp p

end Pool

namespace Codec

/-!
The record codec of the early variant
src/lib/orange-db-core/src/repository/index/node_store.rs.  Bytes are
modelled as List Nat; a Rust copy_from_slice with mismatched lengths or an
out-of-bounds slice panics, modelled as none.  The layout constants come
from the spec (section 6; orange-db-core's config.rs is not under src/):
CELL_HEADER_SIZE = 1 header byte, NODE_PTR_SIZE = 8 (u64),
OVERFLOW_CELL_PTR_SIZE = 4 (u32), and CELL_SIZE = 13 + KEY_SIZE.
-/

/-- Big-endian byte encoding of width w (uN::to_be_bytes). -/
def beBytes (w n : Nat) : List Nat :=
  (List.range w).map (fun i => n / 256 ^ (w - 1 - i) % 256)

/-- Big-endian byte decoding (uN::from_be_bytes). -/
def beVal (l : List Nat) : Nat :=
  l.foldl (fun a b => a * 256 + b) 0

/-- dst[start..stop].copy_from_slice(src): panics (none) unless the slice is
in bounds and the lengths agree exactly. -/
def writeSlice (dst : List Nat) (start stop : Nat) (src : List Nat) :
    Option (List Nat) :=
  if start ≤ stop ∧ stop ≤ dst.length ∧ src.length = stop - start then
    some (dst.take start ++ src ++ dst.drop stop)
  else none

/-- buf.copy_from_slice(&src[start..stop]): the read side. -/
def readSlice (src : List Nat) (start stop : Nat) : Option (List Nat) :=
  if start ≤ stop ∧ stop ≤ src.length then
    some ((src.drop start).take (stop - start))
  else none

/-- node_store.rs lines 4-6. -/
def HAS_OVERFLOW_FLAG : Nat := 128

def IS_ACTIVE : Nat := 64

def IS_LEAF_FLAG : Nat := 128

/-- struct CellRecord (node_store.rs lines 8-14); the key buffer is a
KEY_SIZE-byte array. -/
structure CellRecord where
  header : Nat
  node_ptr : Nat
  overflow_cell_ptr : Nat
  key : List Nat
deriving DecidableEq, Repr

/-- CellRecord::has_overflow (line 20-22): header & HAS_OVERFLOW_FLAG == 1. -/
def CellRecord.has_overflow (c : CellRecord) : Bool :=
  c.header &&& HAS_OVERFLOW_FLAG == 1

/-- CellRecord::set_has_overflow (lines 23-25). -/
def CellRecord.set_has_overflow (c : CellRecord) : CellRecord :=
  { c with header := c.header ||| HAS_OVERFLOW_FLAG }

/-- CellRecord::is_active (lines 26-28): header & IS_ACTIVE == 1. -/
def CellRecord.is_active (c : CellRecord) : Bool :=
  c.header &&& IS_ACTIVE == 1

/-- CellRecord::set_is_active (lines 29-31). -/
def CellRecord.set_is_active (c : CellRecord) : CellRecord :=
  { c with header := c.header ||| IS_ACTIVE }

/-- CellRecord::to_bytes (node_store.rs lines 32-39), parametric in
KEY_SIZE.  Writes the header byte at 0, node_ptr at [1,9), the overflow
pointer at [9,13), and then line 37 copies node_ptr's 8 bytes again into
bytes[KEY_SIZE..] (a 13-byte slice); the key buffer is never written. -/
def CellRecord.to_bytes (ks : Nat) (c : CellRecord) : Option (List Nat) :=
  match writeSlice ((List.replicate (13 + ks) 0).set 0 c.header) 1 9
      (beBytes 8 c.node_ptr) with
  | none => none
  | some b2 =>
    match writeSlice b2 9 13 (beBytes 4 c.overflow_cell_ptr) with
    | none => none
    | some b3 => writeSlice b3 ks (13 + ks) (beBytes 8 c.node_ptr)

/-- CellRecord::from_bytes (node_store.rs lines 40-57): node_ptr from
[1,9), overflow pointer from [9,13), key from [13,13+KEY_SIZE), header from
byte 0. -/
def CellRecord.from_bytes (ks : Nat) (bytes : List Nat) : Option CellRecord :=
  match readSlice bytes 1 9, readSlice bytes 9 13, readSlice bytes 13 (13 + ks),
      Pool.listGet bytes 0 with
  | some nb, some ob, some kb, some h => some ⟨h, beVal nb, beVal ob, kb⟩
  | _, _, _, _ => none

/-- struct BNodeRecord (node_store.rs lines 65-69); cells is a NB_CELL
array. -/
structure BNodeRecord where
  header : Nat
  cells : List CellRecord
  ptr : Nat
deriving DecidableEq, Repr

/-- The cell-writing loop of BNodeRecord::to_bytes (lines 90-93). -/
def writeCells (ks : Nat) : List CellRecord → List Nat → Nat → Option (List Nat)
  | [], b, _ => some b
  | c :: rest, b, i =>
    match CellRecord.to_bytes ks c with
    | none => none
    | some cb =>
      match writeSlice b i (i + (13 + ks)) cb with
      | none => none
      | some b2 => writeCells ks rest b2 (i + (13 + ks))

/-- BNodeRecord::to_bytes (node_store.rs lines 85-96): header byte, then
each cell's bytes, then the trailing next pointer. -/
def BNodeRecord.to_bytes (ks : Nat) (r : BNodeRecord) : Option (List Nat) :=
  let total := 1 + r.cells.length * (13 + ks) + 8
  match writeCells ks r.cells ((List.replicate total 0).set 0 r.header) 1 with
  | none => none
  | some bi => writeSlice bi (1 + r.cells.length * (13 + ks)) total (beBytes 8 r.ptr)

end Codec

namespace Proxy

/-!
The lazy graph proxy, src/lib/zawgl-core/src/graph_engine/model.rs.
ProxyNodeId and ProxyRelationshipId are (mem_id, store_id) pairs; the
source's equality and the map keys use the store id.  Node and Relationship
values are modelled by their get_id() result (none for Node::new()).  Each
operation returns the updated proxy together with its Option result, so that
mutations performed before an early ? return persist, as they do through the
RefCell tables in the source.
-/

/-- In-place list update at an index (the IndexMut uses on the RefCell
vectors; the indices used by the source are in bounds). -/
def listModify {α : Type} : List α → Nat → (α → α) → List α
  | [], _, _ => []
  | a :: rest, 0, f => f a :: rest
  | a :: rest, n + 1, f => a :: listModify rest n f

/-- Vec::insert: shifts every element at or after the index to the right. -/
def insertAt {α : Type} : List α → Nat → α → List α
  | l, 0, a => a :: l
  | [], _ + 1, a => [a]
  | x :: xs, n + 1, a => x :: insertAt xs n a

/-- DbVertexData (spec section 6). -/
structure DbVertexData where
  first_inbound_edge : Option Nat
  first_outbound_edge : Option Nat
deriving DecidableEq, Repr

/-- DbEdgeData (spec section 6). -/
structure DbEdgeData where
  source : Nat
  target : Nat
  next_inbound_edge : Option Nat
  next_outbound_edge : Option Nat
deriving DecidableEq, Repr

/-- InnerVertexData (model.rs lines 92-96); edge references are
ProxyRelationshipId pairs (mem_id, store_id). -/
structure InnerVertexData where
  first_outbound_edge : Option (Nat × Nat)
  first_inbound_edge : Option (Nat × Nat)
deriving DecidableEq, Repr

/-- InnerEdgeData (model.rs lines 98-104). -/
structure InnerEdgeData where
  source : Nat × Nat
  target : Nat × Nat
  next_outbound_edge : Option (Nat × Nat)
  next_inbound_edge : Option (Nat × Nat)
deriving DecidableEq, Repr

/-- Modelled from the spec: the graph repository interface consumed by the
proxy (component C6, external; spec section 6). -/
structure GraphRepository where
  retrieve_node_by_id : Nat → Option DbVertexData
  retrieve_relationship_by_id : Nat → Option DbEdgeData
  retrieve_vertex_data_by_id : Nat → Option DbVertexData
  retrieve_edge_data_by_id : Nat → Option DbEdgeData

/-- struct GraphProxy (model.rs lines 106-115), with Node/Relationship
modelled by their optional store id (retrieve_nodes_ids omitted: unused by
the claims). -/
structure GraphProxy where
  nodes : List (Option Nat)
  relationships : List (Option Nat)
  vertices : List InnerVertexData
  edges : List InnerEdgeData
  repository : GraphRepository
  map_vertices : Nat → Option ((Nat × Nat) × DbVertexData)
  map_edges : Nat → Option ((Nat × Nat) × DbEdgeData)

/-- add_vertex (model.rs lines 212-219): fresh dense index =
vertices.len(), edge heads seeded with new_db ids (mem 0). -/
def add_vertex (g : GraphProxy) (db_id : Nat) (vdata : DbVertexData) :
    GraphProxy × ((Nat × Nat) × InnerVertexData) :=
  let index := g.vertices.length
  let ivd : InnerVertexData :=
    { first_outbound_edge := vdata.first_outbound_edge.map (fun id => (0, id))
      first_inbound_edge := vdata.first_inbound_edge.map (fun id => (0, id)) }
  ({ g with vertices := g.vertices ++ [ivd] }, ((index, db_id), ivd))

/-- get_or_retrieve_vertex_data (model.rs lines 222-232). -/
def get_or_retrieve_vertex_data (g : GraphProxy) (id : Nat) :
    GraphProxy × Option ((Nat × Nat) × InnerVertexData) :=
  match g.map_vertices id with
  | some vd =>
    match Pool.listGet g.vertices vd.1.1 with
    | some v => (g, some (vd.1, v))
    | none => (g, none)
  | none =>
    match g.repository.retrieve_vertex_data_by_id id with
    | none => (g, none)
    | some vdata =>
      let r := add_vertex g id vdata
      ({ r.1 with map_vertices := upd r.1.map_vertices id (some (r.2.1, vdata)) },
        some r.2)

/-- The free function add_edge (model.rs lines 234-258): dense index taken
before the vertex retrievals, then the edge is pushed and the two vertex
heads are seeded if empty. -/
def add_edge (g : GraphProxy) (dbe : DbEdgeData) (rel_db_id : Nat) :
    GraphProxy × Option (Nat × Nat) :=
  let index := g.edges.length
  match get_or_retrieve_vertex_data g dbe.source with
  | (g1, none) => (g1, none)
  | (g1, some sd) =>
    match get_or_retrieve_vertex_data g1 dbe.target with
    | (g2, none) => (g2, none)
    | (g2, some td) =>
      let e : InnerEdgeData :=
        { source := sd.1, target := td.1
          next_inbound_edge := dbe.next_inbound_edge.map (fun id => (0, id))
          next_outbound_edge := dbe.next_outbound_edge.map (fun id => (0, id)) }
      let g3 := { g2 with edges := g2.edges ++ [e] }
      let pid := (index, rel_db_id)
      let g4 := { g3 with vertices := listModify g3.vertices sd.1.1 (fun v =>
        if v.first_outbound_edge = none then { v with first_outbound_edge := some pid }
        else v) }
      let g5 := { g4 with vertices := listModify g4.vertices td.1.1 (fun v =>
        if v.first_inbound_edge = none then { v with first_inbound_edge := some pid }
        else v) }
      (g5, some pid)

/-- GraphProxy::add_edge (model.rs lines 402-405). -/
def proxy_add_edge (g : GraphProxy) (rel_db_id : Nat) :
    GraphProxy × Option (Nat × Nat) :=
  match g.repository.retrieve_edge_data_by_id rel_db_id with
  | none => (g, none)
  | some dbe => add_edge g dbe rel_db_id

/-- GraphProxy::add_node (model.rs lines 411-425): pick the dense id (fresh
via add_vertex, or the one already in the map), pad nodes while the index
exceeds the length, then Vec::insert the node at the index. -/
def add_node (g : GraphProxy) (sid : Nat) (vdata : DbVertexData)
    (retrieve_vertex : Bool) : GraphProxy × Option (Nat × Nat) :=
  let r : GraphProxy × Option (Nat × Nat) :=
    if retrieve_vertex then
      let a := add_vertex g sid vdata
      (a.1, some a.2.1)
    else
      match g.map_vertices sid with
      | some vd => (g, some vd.1)
      | none => (g, none)
  match r with
  | (g1, none) => (g1, none)
  | (g1, some pid) =>
    let padded := g1.nodes ++ List.replicate (pid.1 - g1.nodes.length) none
    ({ g1 with nodes := insertAt padded pid.1 (some sid) }, some pid)

/-- GraphProxy::get_node_ref (model.rs lines 120-144). -/
def get_node_ref (g : GraphProxy) (id_store : Nat) : GraphProxy × Option (Option Nat) :=
  let ondata := g.map_vertices id_store
  let vertex_exists := ondata.isSome
  let retrieve_res : Bool × Nat :=
    match ondata with
    | some nd =>
      if nd.1.1 < g.nodes.length then
        match Pool.listGet g.nodes nd.1.1 with
        | some (some _) => (false, nd.1.1)
        | _ => (true, nd.1.1)
      else (true, 0)
    | none => (true, 0)
  if retrieve_res.1 then
    match g.repository.retrieve_node_by_id id_store with
    | none => (g, none)
    | some vdata =>
      match add_node g id_store vdata (! vertex_exists) with
      | (g1, none) => (g1, none)
      | (g1, some pid) =>
        let g2 :=
          { g1 with map_vertices := upd g1.map_vertices id_store (some (pid, vdata)) }
        (g2, Pool.listGet g2.nodes pid.1)
  else (g, Pool.listGet g.nodes retrieve_res.2)

/-- GraphProxy::add_relationship (model.rs lines 427-441). -/
def add_relationship (g : GraphProxy) (rel_sid : Nat) (retrieve_edge : Bool) :
    GraphProxy × Option (Nat × Nat) :=
  let r : GraphProxy × Option (Nat × Nat) :=
    if retrieve_edge then proxy_add_edge g rel_sid
    else
      match g.map_edges rel_sid with
      | some rd => (g, some rd.1)
      | none => (g, none)
  match r with
  | (g1, none) => (g1, none)
  | (g1, some pid) =>
    let padded := g1.relationships ++
      List.replicate (pid.1 - g1.relationships.length) none
    ({ g1 with relationships := insertAt padded pid.1 (some rel_sid) }, some pid)

/-- GraphProxy::get_relationship_ref (model.rs lines 146-172). -/
def get_relationship_ref (g : GraphProxy) (id_store : Nat) :
    GraphProxy × Option (Option Nat) :=
  let ordata := g.map_edges id_store
  let edge_exists := ordata.isSome
  let retrieve_res : Bool × Nat :=
    match ordata with
    | some rd =>
      if rd.1.1 < g.relationships.length then
        match Pool.listGet g.relationships rd.1.1 with
        | some (some _) => (false, rd.1.1)
        | _ => (true, rd.1.1)
      else (true, 0)
    | none => (true, 0)
  if retrieve_res.1 then
    match g.repository.retrieve_relationship_by_id id_store with
    | none => (g, none)
    | some dbe =>
      match get_or_retrieve_vertex_data g dbe.source with
      | (g1, none) => (g1, none)
      | (g1, some _) =>
        match get_or_retrieve_vertex_data g1 dbe.target with
        | (g2, none) => (g2, none)
        | (g2, some _) =>
          match add_relationship g2 id_store (! edge_exists) with
          | (g3, none) => (g3, none)
          | (g3, some pid) =>
            let g4 :=
              { g3 with map_edges := upd g3.map_edges id_store (some (pid, dbe)) }
            (g4, Pool.listGet g4.relationships pid.1)
  else (g, Pool.listGet g.relationships retrieve_res.2)

/-- One next() step of the InEdges / OutEdges iterators (model.rs lines
185-210 and 269-294) on a cursor whose current edge has the given store id;
the returned pair is the produced ProxyRelationshipId and the new cursor. -/
def iter_next (inbound : Bool) (g : GraphProxy) (cur_store : Nat) :
    GraphProxy × Option ((Nat × Nat) × Option (Nat × Nat)) :=
  match g.map_edges cur_store with
  | some rd =>
    match Pool.listGet g.edges rd.1.1 with
    | none => (g, none)
    | some e =>
      (g, some (rd.1, if inbound then e.next_inbound_edge else e.next_outbound_edge))
  | none =>
    match g.repository.retrieve_edge_data_by_id cur_store with
    | none => (g, none)
    | some ed =>
      match add_edge g ed cur_store with
      | (g1, none) => (g1, none)
      | (g1, some pid) =>
        let g2 :=
          { g1 with map_edges := upd g1.map_edges cur_store (some (pid, ed)) }
        match Pool.listGet g2.edges pid.1 with
        | none => (g2, none)
        | some e =>
          (g2, some (pid, if inbound then e.next_inbound_edge else e.next_outbound_edge))

/-- The proxy operations that can mutate the proxy state: the two lookup
methods and an iterator step (out_edges / in_edges construction itself only
reads the tables). -/
inductive ProxyOp where
  | getNode (sid : Nat)
  | getRel (sid : Nat)
  | iterIn (cur : Nat)
  | iterOut (cur : Nat)

def runProxyOp (g : GraphProxy) : ProxyOp → GraphProxy
  | .getNode sid => (get_node_ref g sid).1
  | .getRel sid => (get_relationship_ref g sid).1
  | .iterIn cur => (iter_next true g cur).1
  | .iterOut cur => (iter_next false g cur).1

def runProxyOps (g : GraphProxy) (ops : List ProxyOp) : GraphProxy :=
  ops.foldl runProxyOp g

/-- A fresh proxy over a repository (GraphProxy::new with the candidate-id
bookkeeping omitted: it does not touch the dense tables). -/
def GraphProxy.init (repo : GraphRepository) : GraphProxy :=
  { nodes := [], relationships := [], vertices := [], edges := []
    repository := repo, map_vertices := fun _ => none, map_edges := fun _ => none }

/-- The dense index the proxy has assigned to a store id, if any. -/
def DenseOf (g : GraphProxy) (sid : Nat) : Option Nat :=
  (g.map_vertices sid).map (fun p => p.1.1)

/-- The proxy's dense-table invariant: every assigned dense index is within
the vertex table, and distinct store ids have distinct dense indices. -/
def Inv (g : GraphProxy) : Prop :=
  (∀ sid pr d, g.map_vertices sid = some (pr, d) → pr.1 < g.vertices.length) ∧
  (∀ sid sid2 pr pr2 d d2, g.map_vertices sid = some (pr, d) →
    g.map_vertices sid2 = some (pr2, d2) → pr.1 = pr2.1 → sid = sid2)

/-- Map stability: existing dense assignments survive with the same
(mem_id, store_id) pair. -/
def MapStable (g g2 : GraphProxy) : Prop :=
  ∀ sid pr d, g.map_vertices sid = some (pr, d) →
    ∃ d2, g2.map_vertices sid = some (pr, d2)

/-- The concrete repository of the C3 scenario: vertices 1 and 2 joined by
edge 10. -/
def repoC3 : GraphRepository where
  retrieve_node_by_id := fun id =>
    if id = 1 then some ⟨none, some 10⟩
    else if id = 2 then some ⟨some 10, none⟩ else none
  retrieve_relationship_by_id := fun id =>
    if id = 10 then some ⟨1, 2, none, none⟩ else none
  retrieve_vertex_data_by_id := fun id =>
    if id = 1 then some ⟨none, some 10⟩
    else if id = 2 then some ⟨some 10, none⟩ else none
  retrieve_edge_data_by_id := fun id =>
    if id = 10 then some ⟨1, 2, none, none⟩ else none

end Proxy

end S2P

namespace S2P

namespace VF2

variable {V W E : Type} [DecidableEq V]

theorem upd_self {α : Type} (f : V → Option α) (x : V) (v : Option α) : upd f x v x = v := by
  simp [upd]

theorem upd_ne {α : Type} (f : V → Option α) (x y : V) (v : Option α) (h : y ≠ x) :
    upd f x v y = f y := by
  simp [upd, h]

@[simp]
theorem swapBS_swapBS (s : BaseState V W) : swapBS (swapBS s) = s := rfl

theorem swapBS_pushIn (s : BaseState V W) (x : V) :
    swapBS (pushIn s x) = pushOut (swapBS s) x := by
  by_cases h : s.in_map x = none <;> simp [pushIn, pushOut, swapBS, h]

theorem swapBS_pushOut (s : BaseState V W) (x : V) :
    swapBS (pushOut s x) = pushIn (swapBS s) x := by
  have := swapBS_pushIn (swapBS s) x
  simp at this
  rw [← this, swapBS_swapBS]

theorem swapBS_popIn (s : BaseState V W) (x : V) :
    swapBS (popIn s x) = popOut (swapBS s) x := by
  rcases h : s.in_map x with _ | d
  · simp [popIn, popOut, swapBS, h]
  · by_cases hd : d = s.core_count <;> simp [popIn, popOut, swapBS, h, hd]

theorem swapBS_popOut (s : BaseState V W) (x : V) :
    swapBS (popOut s x) = popIn (swapBS s) x := by
  have := swapBS_popIn (swapBS s) x
  simp at this
  rw [← this, swapBS_swapBS]

theorem foldl_pushOut_eq_swap (L : List V) (t : BaseState V W) :
    L.foldl pushOut t = swapBS (L.foldl pushIn (swapBS t)) := by
  induction L generalizing t with
  | nil => simp
  | cons x xs ih =>
    have h1 : pushIn (swapBS t) x = swapBS (pushOut t x) := (swapBS_pushOut t x).symm
    simp only [List.foldl_cons, h1]
    exact ih _

theorem foldl_popOut_eq_swap (L : List V) (t : BaseState V W) :
    L.foldl popOut t = swapBS (L.foldl popIn (swapBS t)) := by
  induction L generalizing t with
  | nil => simp
  | cons x xs ih =>
    have h1 : popIn (swapBS t) x = swapBS (popOut t x) := (swapBS_popOut t x).symm
    simp only [List.foldl_cons, h1]
    exact ih _

theorem pushIn_core_count (s : BaseState V W) (x : V) :
    (pushIn s x).core_count = s.core_count := by
  by_cases h : s.in_map x = none <;> simp [pushIn, h]

theorem pushIn_core_map (s : BaseState V W) (x : V) :
    (pushIn s x).core_map = s.core_map := by
  by_cases h : s.in_map x = none <;> simp [pushIn, h]

theorem pushIn_out_map (s : BaseState V W) (x : V) :
    (pushIn s x).out_map = s.out_map := by
  by_cases h : s.in_map x = none <;> simp [pushIn, h]

theorem pushIn_term_out (s : BaseState V W) (x : V) :
    (pushIn s x).term_out_count = s.term_out_count := by
  by_cases h : s.in_map x = none <;> simp [pushIn, h]

theorem pushIn_in_map_ne_none (s : BaseState V W) (x y : V) (h : s.in_map y ≠ none) :
    (pushIn s x).in_map y ≠ none := by
  by_cases hx : s.in_map x = none
  · by_cases hxy : y = x <;> simp [pushIn, hx, upd, hxy, h]
  · simpa [pushIn, hx] using h

theorem pushIn_pushOut_comm (t : BaseState V W) (x y : V) (h : t.in_map y ≠ none) :
    pushIn (pushOut t y) x = pushOut (pushIn t x) y := by
  have hy : (t.in_map y).isSome := Option.isSome_iff_ne_none.mpr h
  by_cases hxy : x = y
  · subst hxy
    have h1 : pushIn t x = t := by simp [pushIn, h]
    have h2 : (pushOut t x).in_map x ≠ none := by
      by_cases ho : t.out_map x = none <;> simp [pushOut, ho, h]
    have h3 : pushIn (pushOut t x) x = pushOut t x := by
      rcases hv : (pushOut t x).in_map x with _ | d
      · exact absurd hv h2
      · simp [pushIn, hv]
    rw [h1, h3]
  · by_cases h1 : t.in_map x = none <;> by_cases h2 : t.out_map y = none
    · have hr1 : (pushOut t y).in_map x = none := by simp [pushOut, h2, h1]
      have hr2 : (pushIn t x).out_map y = none := by simp [pushIn, h1, h2]
      have hxy' : ¬ y = x := fun hc => hxy hc.symm
      apply BaseState.ext
      · simp [pushIn, pushOut, hr1, hr2, h1, h2]
      · simp [pushIn, pushOut, hr1, hr2, h1, h2]
      · simp [pushIn, pushOut, hr1, hr2, h1, h2, upd, hxy, hxy', hy]
        split <;> omega
      · simp [pushIn, pushOut, hr1, hr2, h1, h2]
      · simp [pushIn, pushOut, hr1, hr2, h1, h2]
      · funext z
        by_cases hzx : z = x <;> by_cases hzy : z = y <;>
          simp [pushIn, pushOut, hr1, hr2, h1, h2, upd, hzx, hzy, hxy]
      · funext z
        by_cases hzx : z = x <;> by_cases hzy : z = y <;>
          simp [pushIn, pushOut, hr1, hr2, h1, h2, upd, hzx, hzy, hxy]
    · have hr2 : (pushIn t x).out_map y ≠ none := by simp [pushIn, h1, h2]
      have hpo : pushOut t y = t := by simp [pushOut, h2]
      have hpo2 : pushOut (pushIn t x) y = pushIn t x := by
        rcases hv : (pushIn t x).out_map y with _ | d
        · exact absurd hv hr2
        · simp [pushOut, hv]
      rw [hpo, hpo2]
    · have hr1 : (pushOut t y).in_map x ≠ none := by simp [pushOut, h2, h1]
      have hpi : pushIn t x = t := by simp [pushIn, h1]
      have hpi2 : pushIn (pushOut t y) x = pushOut t y := by
        rcases hv : (pushOut t y).in_map x with _ | d
        · exact absurd hv hr1
        · simp [pushIn, hv]
      rw [hpi, hpi2]
    · have hpi : pushIn t x = t := by simp [pushIn, h1]
      have hpo : pushOut t y = t := by simp [pushOut, h2]
      have hpi2 : pushIn (pushOut t y) x = pushOut t y := by
        have : (pushOut t y).in_map x ≠ none := by simp [pushOut, h2, h1]
        rcases hv : (pushOut t y).in_map x with _ | d
        · exact absurd hv this
        · simp [pushIn, hv]
      rw [hpi, hpi2, hpo]

theorem card_insert_split (S : Finset V) (x : V) :
    (insert x S).card = (S.erase x).card + 1 := by
  by_cases h : x ∈ S
  · rw [Finset.insert_eq_self.mpr h, Finset.card_erase_of_mem h]
    have := Finset.card_pos.mpr ⟨x, h⟩
    omega
  · rw [Finset.card_insert_of_not_mem h, Finset.erase_eq_of_not_mem h]

theorem filter_erase_comm (S : Finset V) (x : V) (p : V → Prop) [DecidablePred p] :
    (S.erase x).filter p = (S.filter p).erase x := by
  ext z
  simp only [Finset.mem_filter, Finset.mem_erase]
  tauto

theorem insert_sdiff_not_mem (S A : Finset V) (x : V) (h : x ∉ A) :
    insert x S \ A = insert x (S \ A) := by
  ext z
  simp only [Finset.mem_sdiff, Finset.mem_insert]
  constructor
  · rintro ⟨hz | hz, hz2⟩
    · exact Or.inl hz
    · exact Or.inr ⟨hz, hz2⟩
  · rintro (hz | ⟨hz, hz2⟩)
    · exact ⟨Or.inl hz, hz ▸ h⟩
    · exact ⟨Or.inr hz, hz2⟩

theorem newF_cons (base : V → Option Nat) (x : V) (L : List V) :
    newF base (x :: L) =
      if base x = none then insert x (newF base L) else newF base L := by
  simp only [newF, List.toFinset_cons, Finset.filter_insert]

/-- Characterization of the in-insertion fold of push_state: starting from a
state whose in_map overlays some already-inserted set A over a base map, the
fold inserts exactly the new vertices of the list and counts them. -/
theorem foldl_pushIn_char (base : V → Option Nat) (L : List V) :
    ∀ (A : Finset V) (t : BaseState V W),
      (∀ x ∈ A, base x = none) →
      t.in_map = ovl A t.core_count base →
      L.foldl pushIn t =
        { t with
          in_map := ovl (A ∪ newF base L) t.core_count base
          term_in_count := t.term_in_count + (newF base L \ A).card
          term_both_count := t.term_both_count +
            ((newF base L \ A).filter (fun x => (t.out_map x).isSome)).card } := by
  induction L with
  | nil =>
    intro A t hA ht
    apply BaseState.ext
    · simp [newF]
    · rfl
    · simp [newF]
    · rfl
    · rfl
    · show t.in_map = _
      rw [ht]
      simp [newF]
    · rfl
  | cons x xs ih =>
    intro A t hA ht
    rw [List.foldl_cons]
    by_cases hx2 : base x = none
    · by_cases hx1 : x ∈ A
      · have hskip : pushIn t x = t := by
          have : t.in_map x = some t.core_count := by rw [ht]; simp [ovl, hx1]
          simp [pushIn, this]
        rw [hskip, ih A t hA ht, newF_cons, if_pos hx2]
        have hins : insert x (newF base xs) \ A = newF base xs \ A := by
          ext z
          simp only [Finset.mem_sdiff, Finset.mem_insert]
          constructor
          · rintro ⟨hz | hz, hz2⟩
            · exact absurd (hz ▸ hx1) hz2
            · exact ⟨hz, hz2⟩
          · rintro ⟨hz, hz2⟩
            exact ⟨Or.inr hz, hz2⟩
        have huni : A ∪ insert x (newF base xs) = A ∪ newF base xs := by
          rw [Finset.union_insert, Finset.insert_eq_self.mpr (Finset.mem_union_left _ hx1)]
        rw [hins, huni]
      · have hnone : t.in_map x = none := by rw [ht]; simp [ovl, hx1, hx2]
        have hstep : pushIn t x =
            { t with
              in_map := upd t.in_map x (some t.core_count)
              term_in_count := t.term_in_count + 1
              term_both_count :=
                if (t.out_map x).isSome then t.term_both_count + 1
                else t.term_both_count } := by
          simp [pushIn, hnone]
        have hA' : ∀ y ∈ insert x A, base y = none := by
          intro y hy
          rcases Finset.mem_insert.mp hy with hy | hy
          · exact hy ▸ hx2
          · exact hA y hy
        have ht' : (pushIn t x).in_map = ovl (insert x A) (pushIn t x).core_count base := by
          rw [hstep]
          funext z
          by_cases hz : z = x
          · simp [upd, ovl, hz]
          · simp only [upd, ovl, ht, if_neg hz, Finset.mem_insert]
            simp [ovl, hz]
        have hsd : newF base xs \ insert x A = (newF base xs \ A).erase x :=
          Finset.sdiff_insert (newF base xs) A x
        have hsd2 : insert x (newF base xs) \ A = insert x (newF base xs \ A) :=
          insert_sdiff_not_mem _ _ _ hx1
        have huni : insert x A ∪ newF base xs = A ∪ insert x (newF base xs) := by
          rw [Finset.insert_union, Finset.union_insert]
        rw [ih (insert x A) (pushIn t x) hA' ht', hstep]
        dsimp only
        apply BaseState.ext
        · show t.term_in_count + 1 + _ = t.term_in_count + _
          rw [newF_cons, if_pos hx2, hsd, hsd2, card_insert_split]
          omega
        · rfl
        · show (if (t.out_map x).isSome then t.term_both_count + 1 else t.term_both_count)
              + _ = t.term_both_count + _
          rw [newF_cons, if_pos hx2, hsd, hsd2, filter_erase_comm, Finset.filter_insert]
          by_cases hp : (t.out_map x).isSome
          · rw [if_pos hp, if_pos hp, card_insert_split]
            omega
          · rw [if_neg hp, if_neg hp]
            have hxnot : x ∉ (newF base xs \ A).filter (fun y => (t.out_map y).isSome) := by
              intro hc
              exact hp (Finset.mem_filter.mp hc).2
            rw [Finset.erase_eq_of_not_mem hxnot]
        · rfl
        · rfl
        · show ovl (insert x A ∪ newF base xs) t.core_count base = _
          rw [newF_cons, if_pos hx2, huni]
        · rfl
    · have hskip : pushIn t x = t := by
        rcases hv : t.in_map x with _ | d
        · rw [ht] at hv
          simp only [ovl] at hv
          by_cases hx1 : x ∈ A
          · simp [hx1] at hv
          · rw [if_neg hx1] at hv
            exact absurd hv hx2
        · simp [pushIn, hv]
      rw [hskip, ih A t hA ht, newF_cons, if_neg hx2]

theorem erase_inter_comm (A B : Finset V) (x : V) :
    A.erase x ∩ B = (A ∩ B).erase x := by
  ext z
  simp only [Finset.mem_inter, Finset.mem_erase]
  tauto

theorem erase_sdiff_eq (A B : Finset V) (x : V) :
    A.erase x \ B = A \ insert x B := by
  ext z
  simp only [Finset.mem_sdiff, Finset.mem_erase, Finset.mem_insert]
  tauto

theorem inter_insert_mem (A B : Finset V) (x : V) (h : x ∈ A) :
    A ∩ insert x B = insert x (A ∩ B) := by
  ext z
  simp only [Finset.mem_inter, Finset.mem_insert]
  constructor
  · rintro ⟨hz, hz2 | hz2⟩
    · exact Or.inl hz2
    · exact Or.inr ⟨hz, hz2⟩
  · rintro (hz | ⟨hz, hz2⟩)
    · exact ⟨hz ▸ h, Or.inl hz⟩
    · exact ⟨hz, Or.inr hz2⟩

theorem inter_insert_not_mem (A B : Finset V) (x : V) (h : x ∉ A) :
    A ∩ insert x B = A ∩ B := by
  ext z
  simp only [Finset.mem_inter, Finset.mem_insert]
  constructor
  · rintro ⟨hz, hz2 | hz2⟩
    · exact absurd (hz2 ▸ hz) h
    · exact ⟨hz, hz2⟩
  · rintro ⟨hz, hz2⟩
    exact ⟨hz, Or.inr hz2⟩

theorem sdiff_insert_not_mem (A B : Finset V) (x : V) (h : x ∉ A) :
    A \ insert x B = A \ B := by
  ext z
  simp only [Finset.mem_sdiff, Finset.mem_insert]
  constructor
  · rintro ⟨hz, hz2⟩
    exact ⟨hz, fun hc => hz2 (Or.inr hc)⟩
  · rintro ⟨hz, hz2⟩
    refine ⟨hz, ?_⟩
    rintro (hc | hc)
    · exact h (hc ▸ hz)
    · exact hz2 hc

/-- Characterization of the in-removal fold of pop_state: starting from a
state whose in_map overlays a set A of current-depth entries over a base map
with strictly smaller depths, the fold removes exactly the overlay entries
named by the list and decrements the counters accordingly (no
term_both_count guard ever blocks under the stated bound). -/
theorem foldl_popIn_char (base : V → Option Nat) (L : List V) :
    ∀ (A : Finset V) (t : BaseState V W),
      (∀ x ∈ A, base x = none) →
      (∀ x d, base x = some d → d ≠ t.core_count) →
      t.in_map = ovl A t.core_count base →
      ((A ∩ L.toFinset).filter (fun x => (t.out_map x).isSome)).card ≤ t.term_both_count →
      L.foldl popIn t =
        { t with
          in_map := ovl (A \ L.toFinset) t.core_count base
          term_in_count := t.term_in_count - (A ∩ L.toFinset).card
          term_both_count := t.term_both_count -
            ((A ∩ L.toFinset).filter (fun x => (t.out_map x).isSome)).card } := by
  induction L with
  | nil =>
    intro A t hA hbase ht hguard
    apply BaseState.ext
    · simp
    · rfl
    · simp
    · rfl
    · rfl
    · show t.in_map = _
      rw [ht]
      simp
    · rfl
  | cons x xs ih =>
    intro A t hA hbase ht hguard
    rw [List.foldl_cons]
    by_cases hx1 : x ∈ A
    · have hsome : t.in_map x = some t.core_count := by rw [ht]; simp [ovl, hx1]
      have hstep : popIn t x =
          { t with
            in_map := upd t.in_map x none
            term_in_count := t.term_in_count - 1
            term_both_count :=
              if (t.out_map x).isSome then t.term_both_count - 1
              else t.term_both_count } := by
        by_cases hp : (t.out_map x).isSome
        · have hmem : x ∈ (A ∩ (x :: xs).toFinset).filter
              (fun y => (t.out_map y).isSome) := by
            simp [Finset.mem_filter, Finset.mem_inter, hx1, hp]
          have h1 : 1 ≤ ((A ∩ (x :: xs).toFinset).filter
              (fun y => (t.out_map y).isSome)).card :=
            Finset.card_pos.mpr ⟨x, hmem⟩
          have hpos : 0 < t.term_both_count := by omega
          simp only [popIn, hsome]
          simp [hp, hpos]
        · simp only [popIn, hsome]
          simp [hp]
      have hA' : ∀ y ∈ A.erase x, base y = none := fun y hy =>
        hA y (Finset.mem_of_mem_erase hy)
      have ht' : (popIn t x).in_map = ovl (A.erase x) (popIn t x).core_count base := by
        rw [hstep]
        funext z
        by_cases hz : z = x
        · subst hz
          simp [upd, ovl, hA z hx1]
        · simp only [upd, ovl, ht, if_neg hz]
          simp [ovl, Finset.mem_erase, hz]
      have hbase' : ∀ y d, base y = some d → d ≠ (popIn t x).core_count := by
        rw [hstep]
        exact hbase
      have hset : A.erase x ∩ xs.toFinset = (A ∩ (x :: xs).toFinset).erase x := by
        ext z
        simp only [Finset.mem_inter, Finset.mem_erase, List.toFinset_cons,
          Finset.mem_insert]
        tauto
      have hSS : (A.erase x ∩ xs.toFinset).filter (fun y => (t.out_map y).isSome) =
          ((A ∩ (x :: xs).toFinset).filter (fun y => (t.out_map y).isSome)).erase x := by
        rw [hset, filter_erase_comm]
      have hguard' : ((A.erase x ∩ xs.toFinset).filter
            (fun y => ((popIn t x).out_map y).isSome)).card ≤
            (popIn t x).term_both_count := by
        rw [hstep]
        dsimp only
        rw [hSS]
        by_cases hp : (t.out_map x).isSome
        · have hmem : x ∈ (A ∩ (x :: xs).toFinset).filter
              (fun y => (t.out_map y).isSome) := by
            simp [Finset.mem_filter, Finset.mem_inter, hx1, hp]
          rw [if_pos hp, Finset.card_erase_of_mem hmem]
          omega
        · have hnot : x ∉ (A ∩ (x :: xs).toFinset).filter
              (fun y => (t.out_map y).isSome) := by
            intro hc
            exact hp (Finset.mem_filter.mp hc).2
          rw [if_neg hp, Finset.erase_eq_of_not_mem hnot]
          exact hguard
      rw [ih (A.erase x) (popIn t x) hA' hbase' ht' hguard', hstep]
      dsimp only
      apply BaseState.ext
      · show t.term_in_count - 1 - _ = t.term_in_count - _
        rw [erase_inter_comm, List.toFinset_cons, inter_insert_mem _ _ _ hx1,
          card_insert_split]
        omega
      · rfl
      · show (if (t.out_map x).isSome then t.term_both_count - 1 else t.term_both_count)
            - _ = t.term_both_count - _
        rw [hSS]
        by_cases hp : (t.out_map x).isSome
        · have hmem : x ∈ (A ∩ (x :: xs).toFinset).filter
              (fun y => (t.out_map y).isSome) := by
            simp [Finset.mem_filter, Finset.mem_inter, hx1, hp]
          rw [if_pos hp, Finset.card_erase_of_mem hmem]
          have h1 : 1 ≤ ((A ∩ (x :: xs).toFinset).filter
              (fun y => (t.out_map y).isSome)).card :=
            Finset.card_pos.mpr ⟨x, hmem⟩
          omega
        · have hnot : x ∉ (A ∩ (x :: xs).toFinset).filter
              (fun y => (t.out_map y).isSome) := by
            intro hc
            exact hp (Finset.mem_filter.mp hc).2
          rw [if_neg hp, Finset.erase_eq_of_not_mem hnot]
      · rfl
      · rfl
      · show ovl (A.erase x \ xs.toFinset) t.core_count base = _
        rw [erase_sdiff_eq, List.toFinset_cons]
      · rfl
    · have hskip : popIn t x = t := by
        rcases hv : t.in_map x with _ | d
        · simp [popIn, hv]
        · have hbv : base x = some d := by
            rw [ht] at hv
            simpa [ovl, hx1] using hv

          simp [popIn, hv, hbase x d hbv]
      rw [hskip, List.toFinset_cons, inter_insert_not_mem _ _ _ hx1,
        sdiff_insert_not_mem _ _ _ hx1]
      exact ih A t hA hbase ht
        (by rwa [List.toFinset_cons, inter_insert_not_mem _ _ _ hx1] at hguard)

theorem pushIn_self_ne_none (t : BaseState V W) (x : V) : (pushIn t x).in_map x ≠ none := by
  by_cases h : t.in_map x = none
  · simp [pushIn, h, upd]
  · simpa [pushIn, h] using h

theorem foldl_pushIn_pushOut_comm (L : List V) (t : BaseState V W) (y : V)
    (h : t.in_map y ≠ none) :
    L.foldl pushIn (pushOut t y) = pushOut (L.foldl pushIn t) y := by
  induction L generalizing t with
  | nil => rfl
  | cons x xs ih =>
    rw [List.foldl_cons, List.foldl_cons, pushIn_pushOut_comm t x y h]
    exact ih (pushIn t x) (pushIn_in_map_ne_none t x y h)

theorem foldl_comp_map {α β : Type} (f : β → V) (step : α → V → α) (L : List β) (t : α) :
    L.foldl (fun x e => step x (f e)) t = (L.map f).foldl step t :=
  (List.foldl_map f step L t).symm

theorem push_state_normal (g : Graph V E) (s : BaseState V W) (v0 : V) (v1 : W) :
    push_state g s v0 v1 =
      (v0 :: (g.out_edges v0).map g.tgt).foldl pushOut
        ((v0 :: (g.in_edges v0).map g.src).foldl pushIn
          { s with core_count := s.core_count + 1
                   core_map := upd s.core_map v0 (some v1) }) := by
  show ((g.out_edges v0).foldl (fun t e => pushOut t (g.tgt e))
      ((g.in_edges v0).foldl (fun t e => pushIn t (g.src e))
        (pushOut (pushIn _ v0) v0))) = _
  rw [foldl_comp_map g.tgt pushOut, foldl_comp_map g.src pushIn,
    List.foldl_cons, List.foldl_cons,
    foldl_pushIn_pushOut_comm _ _ _ (pushIn_self_ne_none _ v0)]

theorem ovl_empty (c : Nat) (m : V → Option Nat) : ovl (∅ : Finset V) c m = m := by
  funext z
  simp [ovl]

theorem ovl_isSome (A : Finset V) (c : Nat) (m : V → Option Nat) (x : V) :
    (ovl A c m x).isSome ↔ x ∈ A ∨ (m x).isSome := by
  by_cases h : x ∈ A <;> simp [ovl, h]

theorem newF_mem_none (base : V → Option Nat) (L : List V) (x : V)
    (h : x ∈ newF base L) : base x = none :=
  (Finset.mem_filter.mp h).2

theorem newF_inter (base : V → Option Nat) (L : List V) :
    newF base L ∩ L.toFinset = newF base L :=
  Finset.inter_eq_left.mpr (Finset.filter_subset _ _)

theorem newF_sdiff (base : V → Option Nat) (L : List V) :
    newF base L \ L.toFinset = ∅ :=
  Finset.sdiff_eq_empty_iff_subset.mpr (Finset.filter_subset _ _)

/-- Full characterization of push_state: new terminal entries are exactly the
new vertices of the two incidence lists, at depth core_count + 1, and the
counters grow by the corresponding cardinalities. -/
theorem push_state_char (g : Graph V E) (s : BaseState V W) (v0 : V) (v1 : W) :
    push_state g s v0 v1 =
      { term_in_count := s.term_in_count +
          (newF s.in_map (v0 :: (g.in_edges v0).map g.src)).card
        term_out_count := s.term_out_count +
          (newF s.out_map (v0 :: (g.out_edges v0).map g.tgt)).card
        term_both_count := s.term_both_count +
          ((newF s.in_map (v0 :: (g.in_edges v0).map g.src)).filter
            (fun x => (s.out_map x).isSome)).card +
          ((newF s.out_map (v0 :: (g.out_edges v0).map g.tgt)).filter
            (fun x => (ovl (newF s.in_map (v0 :: (g.in_edges v0).map g.src))
              (s.core_count + 1) s.in_map x).isSome)).card
        core_count := s.core_count + 1
        core_map := upd s.core_map v0 (some v1)
        in_map := ovl (newF s.in_map (v0 :: (g.in_edges v0).map g.src))
          (s.core_count + 1) s.in_map
        out_map := ovl (newF s.out_map (v0 :: (g.out_edges v0).map g.tgt))
          (s.core_count + 1) s.out_map } := by
  rw [push_state_normal]
  rw [foldl_pushIn_char s.in_map (v0 :: (g.in_edges v0).map g.src) ∅
    { s with core_count := s.core_count + 1, core_map := upd s.core_map v0 (some v1) }
    (by simp) (by funext z; simp [ovl])]
  dsimp only
  rw [foldl_pushOut_eq_swap]
  rw [foldl_pushIn_char s.out_map (v0 :: (g.out_edges v0).map g.tgt) ∅ _
    (by simp) (by funext z; simp [swapBS, ovl])]
  apply BaseState.ext
  · show s.term_in_count + _ = _
    simp
  · show s.term_out_count + _ = _
    simp [swapBS]
  · show s.term_both_count + _ + _ = _
    simp [swapBS]
  · rfl
  · rfl
  · show ovl (∅ ∪ _) _ s.in_map = _
    simp
  · show ovl (∅ ∪ _) _ s.out_map = _
    simp [swapBS]

/-- Every reachable state stores only depths bounded by the current
core_count in its terminal maps. -/
theorem reachable_depth_bound (g : Graph V E) (s : BaseState V W) (h : Reachable g s) :
    (∀ x d, s.in_map x = some d → d ≤ s.core_count) ∧
    (∀ x d, s.out_map x = some d → d ≤ s.core_count) := by
  induction h with
  | init =>
    constructor <;> intro x d hx <;> simp [BaseState.init] at hx
  | push s v0 v1 hr hcore ih =>
    rw [push_state_char]
    dsimp only
    constructor
    · intro x d hx
      simp only [ovl] at hx
      by_cases hm : x ∈ newF s.in_map (v0 :: (g.in_edges v0).map g.src)
      · rw [if_pos hm] at hx
        simp at hx
        omega
      · rw [if_neg hm] at hx
        have := ih.1 x d hx
        omega
    · intro x d hx
      simp only [ovl] at hx
      by_cases hm : x ∈ newF s.out_map (v0 :: (g.out_edges v0).map g.tgt)
      · rw [if_pos hm] at hx
        simp at hx
        omega
      · rw [if_neg hm] at hx
        have := ih.2 x d hx
        omega

theorem pop_state_normal (g : Graph V E) (t : BaseState V W) (v0 : V)
    (h : t.core_count ≠ 0) :
    pop_state g t v0 =
      { ((v0 :: (g.out_edges v0).map g.tgt).foldl popOut
          ((v0 :: (g.in_edges v0).map g.src).foldl popIn t)) with
        core_map := upd ((v0 :: (g.out_edges v0).map g.tgt).foldl popOut
          ((v0 :: (g.in_edges v0).map g.src).foldl popIn t)).core_map v0 none
        core_count := ((v0 :: (g.out_edges v0).map g.tgt).foldl popOut
          ((v0 :: (g.in_edges v0).map g.src).foldl popIn t)).core_count - 1 } := by
  unfold pop_state
  rw [if_neg h]
  dsimp only
  rw [foldl_comp_map g.src popIn, foldl_comp_map g.tgt popOut,
    List.foldl_cons, List.foldl_cons]

theorem card_filter_ovl_isSome (A B : Finset V) (c : Nat) (m : V → Option Nat)
    (hA : ∀ x ∈ A, m x = none) :
    (B.filter (fun x => (ovl A c m x).isSome)).card =
      (B ∩ A).card + (B.filter (fun x => (m x).isSome)).card := by
  have h1 : B.filter (fun x => (ovl A c m x).isSome) =
      B.filter (fun x => x ∈ A ∨ (m x).isSome) :=
    Finset.filter_congr (fun x _ => by simp [ovl_isSome])
  have hdisj : Disjoint (B.filter (fun x => x ∈ A))
      (B.filter (fun x => (m x).isSome)) := by
    rw [Finset.disjoint_left]
    intro a ha hb
    have h2 := (Finset.mem_filter.mp ha).2
    have h3 := (Finset.mem_filter.mp hb).2
    rw [hA a h2] at h3
    simp at h3
  rw [h1, Finset.filter_or, Finset.card_union_of_disjoint hdisj,
    Finset.filter_mem_eq_inter]

set_option maxHeartbeats 1000000 in
/-- C1 core lemma: push of an unmapped vertex followed by the matching pop
restores the base state exactly, given the depth bounds that hold in every
reachable state. -/
theorem push_pop_aux (g : Graph V E) (s : BaseState V W) (v0 : V) (v1 : W)
    (Hin : ∀ x d, s.in_map x = some d → d ≤ s.core_count)
    (Hout : ∀ x d, s.out_map x = some d → d ≤ s.core_count)
    (hv0 : s.core_map v0 = none) :
    pop_state g (push_state g s v0 v1) v0 = s := by
  have hP := push_state_char g s v0 v1
  set P := push_state g s v0 v1 with hPdef
  have hic : (newF s.in_map (v0 :: (g.in_edges v0).map g.src) ∩
        newF s.out_map (v0 :: (g.out_edges v0).map g.tgt)).card =
      (newF s.out_map (v0 :: (g.out_edges v0).map g.tgt) ∩
        newF s.in_map (v0 :: (g.in_edges v0).map g.src)).card := by
    rw [Finset.inter_comm]
  have hC3 := card_filter_ovl_isSome
    (newF s.out_map (v0 :: (g.out_edges v0).map g.tgt))
    (newF s.in_map (v0 :: (g.in_edges v0).map g.src))
    (s.core_count + 1) s.out_map (fun x hx => newF_mem_none _ _ _ hx)
  have hI2 := card_filter_ovl_isSome
    (newF s.in_map (v0 :: (g.in_edges v0).map g.src))
    (newF s.out_map (v0 :: (g.out_edges v0).map g.tgt))
    (s.core_count + 1) s.in_map (fun x hx => newF_mem_none _ _ _ hx)
  have hne : P.core_count ≠ 0 := by
    rw [hP]
    exact Nat.succ_ne_zero _
  have hguard3 : (((newF s.in_map (v0 :: (g.in_edges v0).map g.src)) ∩
        (v0 :: (g.in_edges v0).map g.src).toFinset).filter
        (fun x => (P.out_map x).isSome)).card ≤ P.term_both_count := by
    rw [hP]
    dsimp only
    rw [newF_inter, hC3]
    omega
  have h3 := foldl_popIn_char s.in_map (v0 :: (g.in_edges v0).map g.src)
    (newF s.in_map (v0 :: (g.in_edges v0).map g.src)) P
    (fun x hx => newF_mem_none _ _ _ hx)
    (fun x d hxd => by
      have := Hin x d hxd
      rw [hP]
      show d ≠ s.core_count + 1
      omega)
    (by rw [hP])
    hguard3
  have hQ3 : (v0 :: (g.in_edges v0).map g.src).foldl popIn P =
      { term_in_count := s.term_in_count
        term_out_count := s.term_out_count +
          (newF s.out_map (v0 :: (g.out_edges v0).map g.tgt)).card
        term_both_count := s.term_both_count +
          ((newF s.in_map (v0 :: (g.in_edges v0).map g.src)).filter
            (fun x => (s.out_map x).isSome)).card +
          ((newF s.out_map (v0 :: (g.out_edges v0).map g.tgt)).filter
            (fun x => (ovl (newF s.in_map (v0 :: (g.in_edges v0).map g.src))
              (s.core_count + 1) s.in_map x).isSome)).card -
          ((newF s.in_map (v0 :: (g.in_edges v0).map g.src)).filter
            (fun x => (ovl (newF s.out_map (v0 :: (g.out_edges v0).map g.tgt))
              (s.core_count + 1) s.out_map x).isSome)).card
        core_count := s.core_count + 1
        core_map := upd s.core_map v0 (some v1)
        in_map := s.in_map
        out_map := ovl (newF s.out_map (v0 :: (g.out_edges v0).map g.tgt))
          (s.core_count + 1) s.out_map } := by
    rw [h3, hP]
    apply BaseState.ext
    · show s.term_in_count +
          (newF s.in_map (v0 :: (g.in_edges v0).map g.src)).card -
          ((newF s.in_map (v0 :: (g.in_edges v0).map g.src)) ∩
            (v0 :: (g.in_edges v0).map g.src).toFinset).card = s.term_in_count
      rw [newF_inter]
      omega
    · rfl
    · show _ - (((newF s.in_map (v0 :: (g.in_edges v0).map g.src)) ∩
            (v0 :: (g.in_edges v0).map g.src).toFinset).filter
            (fun x => (ovl (newF s.out_map (v0 :: (g.out_edges v0).map g.tgt))
              (s.core_count + 1) s.out_map x).isSome)).card = _
      rw [newF_inter]
    · rfl
    · rfl
    · show ovl ((newF s.in_map (v0 :: (g.in_edges v0).map g.src)) \
          (v0 :: (g.in_edges v0).map g.src).toFinset) (s.core_count + 1) s.in_map =
          s.in_map
      rw [newF_sdiff, ovl_empty]
    · rfl
  have hguard4 : (((newF s.out_map (v0 :: (g.out_edges v0).map g.tgt)) ∩
        (v0 :: (g.out_edges v0).map g.tgt).toFinset).filter
        (fun x => (s.in_map x).isSome)).card ≤
      s.term_both_count +
        ((newF s.in_map (v0 :: (g.in_edges v0).map g.src)).filter
          (fun x => (s.out_map x).isSome)).card +
        ((newF s.out_map (v0 :: (g.out_edges v0).map g.tgt)).filter
          (fun x => (ovl (newF s.in_map (v0 :: (g.in_edges v0).map g.src))
            (s.core_count + 1) s.in_map x).isSome)).card -
        ((newF s.in_map (v0 :: (g.in_edges v0).map g.src)).filter
          (fun x => (ovl (newF s.out_map (v0 :: (g.out_edges v0).map g.tgt))
            (s.core_count + 1) s.out_map x).isSome)).card := by
    rw [newF_inter, hC3]
    omega
  rw [pop_state_normal g P v0 hne, hQ3, foldl_popOut_eq_swap]
  rw [foldl_popIn_char s.out_map (v0 :: (g.out_edges v0).map g.tgt)
    (newF s.out_map (v0 :: (g.out_edges v0).map g.tgt)) _
    (fun x hx => newF_mem_none _ _ _ hx)
    (fun x d hxd => by
      have := Hout x d hxd
      show d ≠ s.core_count + 1
      omega)
    rfl
    hguard4]
  apply BaseState.ext
  · rfl
  · show s.term_out_count +
        (newF s.out_map (v0 :: (g.out_edges v0).map g.tgt)).card -
        ((newF s.out_map (v0 :: (g.out_edges v0).map g.tgt)) ∩
          (v0 :: (g.out_edges v0).map g.tgt).toFinset).card = s.term_out_count
    rw [newF_inter]
    omega
  · show s.term_both_count +
        ((newF s.in_map (v0 :: (g.in_edges v0).map g.src)).filter
          (fun x => (s.out_map x).isSome)).card +
        ((newF s.out_map (v0 :: (g.out_edges v0).map g.tgt)).filter
          (fun x => (ovl (newF s.in_map (v0 :: (g.in_edges v0).map g.src))
            (s.core_count + 1) s.in_map x).isSome)).card -
        ((newF s.in_map (v0 :: (g.in_edges v0).map g.src)).filter
          (fun x => (ovl (newF s.out_map (v0 :: (g.out_edges v0).map g.tgt))
            (s.core_count + 1) s.out_map x).isSome)).card -
        (((newF s.out_map (v0 :: (g.out_edges v0).map g.tgt)) ∩
          (v0 :: (g.out_edges v0).map g.tgt).toFinset).filter
          (fun x => (s.in_map x).isSome)).card = s.term_both_count
    rw [newF_inter, hC3]
    omega
  · show s.core_count + 1 - 1 = s.core_count
    omega
  · show upd (upd s.core_map v0 (some v1)) v0 none = s.core_map
    funext z
    by_cases hz : z = v0
    · subst hz
      rw [upd_self, hv0]
    · rw [upd_ne _ _ _ _ hz, upd_ne _ _ _ _ hz]
  · rfl
  · show ovl ((newF s.out_map (v0 :: (g.out_edges v0).map g.tgt)) \
        (v0 :: (g.out_edges v0).map g.tgt).toFinset) (s.core_count + 1) s.out_map =
        s.out_map
    rw [newF_sdiff, ovl_empty]

/-- C1 (amended part, push_state_0/pop_state_0 and push_state_1/pop_state_1):
for every reachable VF2 base state (on either side; both sides run the same
textual code) and every push of a vertex pair whose pattern vertex is not
yet mapped, the matching pop restores core_map, in_map, out_map,
term_in_count, term_out_count, term_both_count and core_count exactly.  The
old BaseState::push/pop variant does not satisfy this; see the
counterexample below. -/
theorem push_pop_restores (g : Graph V E) (s : BaseState V W) (v0 : V) (v1 : W)
    (hreach : Reachable g s) (hv0 : s.core_map v0 = none) :
    pop_state g (push_state g s v0 v1) v0 = s := by
  obtain ⟨Hin, Hout⟩ := reachable_depth_bound g s hreach
  exact push_pop_aux g s v0 v1 Hin Hout hv0

/-- Witness for push_pop_restores on a concrete two-vertex graph with one
edge, pushing vertex 0 onto the empty (initial, hence reachable) state. -/
theorem push_pop_restores_witness :
    pop_state (V := Nat) (W := Nat) (E := Nat)
      ⟨fun v => if v = 1 then [0] else [], fun v => if v = 0 then [0] else [],
        fun _ => 0, fun _ => 1⟩
      (push_state ⟨fun v => if v = 1 then [0] else [], fun v => if v = 0 then [0] else [],
        fun _ => 0, fun _ => 1⟩ BaseState.init 0 5) 0 = BaseState.init :=
  push_pop_restores _ BaseState.init 0 5 Reachable.init rfl

/-- C1 counterexample for the cited old variant: BaseState::push followed by
the matching BaseState::pop (src/src/matcher/vf2/base_state.rs lines 19-113)
does not restore the state.  Pushing (0, 5) onto the empty state over an
edgeless graph and popping it leaves in_map 0 and out_map 0 at some 0: the
pop writes depth 0 instead of removing the entries (lines 66, 78, 89, 101),
so the maps differ from the original empty ones.  The same run also reaches
the second unguarded term_both_count decrement (line 92) with
term_both_count already 0, because line 91 still finds the zeroed in_map
entry: the usize subtraction underflows in the source (the Nat model
truncates to 0). -/
theorem push_pop_old_not_restored_counterexample :
    (pop_old ⟨fun _ => [], fun _ => [], fun _ => 0, fun _ => 0⟩
        (push_state (E := Nat) ⟨fun _ => [], fun _ => [], fun _ => 0, fun _ => 0⟩
          (BaseState.init (V := Nat) (W := Nat)) 0 5) 0).in_map 0 = some 0 ∧
    (pop_old ⟨fun _ => [], fun _ => [], fun _ => 0, fun _ => 0⟩
        (push_state (E := Nat) ⟨fun _ => [], fun _ => [], fun _ => 0, fun _ => 0⟩
          (BaseState.init (V := Nat) (W := Nat)) 0 5) 0).out_map 0 = some 0 ∧
    (BaseState.init (V := Nat) (W := Nat)).in_map 0 = none ∧
    pop_old ⟨fun _ => [], fun _ => [], fun _ => 0, fun _ => 0⟩
        (push_state (E := Nat) ⟨fun _ => [], fun _ => [], fun _ => 0, fun _ => 0⟩
          (BaseState.init (V := Nat) (W := Nat)) 0 5) 0 ≠ BaseState.init := by
  refine ⟨by decide, by decide, rfl, fun h => ?_⟩
  have h2 := congrArg (fun t : BaseState Nat Nat => t.in_map 0) h
  exact absurd h2 (by decide)

section Feasibility

variable {F NT RT : Type} [DecidableEq W] [DecidableEq F]

/-- C4 counterexample: on a concrete pattern/target pair where the proxy
cannot resolve the target's self-loop relationship, feasible propagates the
failure (returns none); it does not evaluate to Some false as the claim
states. -/
theorem feasible_missing_edge_counterexample :
    feasible stC4 0 7 = none ∧ feasible stC4 0 7 ≠ some false := by
  decide

/-- C4 amended: a missing vertex makes feasible return none, and a missing
relationship reached inside edge_exists_1 (the first unmatched candidate
edge in the scan) equally aborts with none; a missing edge is never turned
into Some false. -/
theorem feasible_missing_hard_failure (st : MatchState V E W F NT RT) :
    (∀ (v : V) (w : W), st.graph_1.get_node_ref w = none → feasible st v w = none) ∧
    (∀ (r0 : RT) (t0 : W) (mset : Finset F) (L : List F),
      (∀ f ∈ L, st.graph_1.tgt f = t0 → f ∉ mset →
        st.graph_1.get_relationship_ref f = none) →
      (∃ f ∈ L, st.graph_1.tgt f = t0 ∧ f ∉ mset) →
      edge_exists_1_loop st r0 t0 mset L = none) := by
  constructor
  · intro v w h
    simp [feasible, feasible_with_traces, h]
  · intro r0 t0 mset L
    induction L with
    | nil =>
      intro _ hex
      rcases hex with ⟨f, hf, _⟩
      simp at hf
    | cons f rest ih =>
      intro hall hex
      by_cases hc : st.graph_1.tgt f = t0 ∧ f ∉ mset
      · have hrel := hall f (by simp) hc.1 hc.2
        simp [edge_exists_1_loop, hc, hrel]
      · simp only [edge_exists_1_loop, if_neg hc]
        rcases hex with ⟨f2, hf2, hcand⟩
        rcases List.mem_cons.mp hf2 with hf2 | hf2
        · exact absurd (hf2 ▸ hcand) hc
        · exact ih (fun f3 hf3 => hall f3 (List.mem_cons_of_mem _ hf3)) ⟨f2, hf2, hcand⟩

/-- Witness for feasible_missing_hard_failure at concrete inputs: vertex 99
is unknown to the target graph, and the single candidate self-loop edge 3 of
stC4 has an unresolvable relationship. -/
theorem feasible_missing_hard_failure_witness :
    feasible stC4 0 99 = none ∧
      edge_exists_1_loop stC4 () 7 (∅ : Finset Nat) [3] = none :=
  ⟨(feasible_missing_hard_failure stC4).1 0 99 (by decide),
    (feasible_missing_hard_failure stC4).2 () 7 ∅ [3] (by decide) (by decide)⟩

/-- C5 counterexample: in a single feasible call on stC5, target edge 3 is
accepted as the witness for pattern edge 0 in the in-edge loop and for the
different pattern edge 1 in the out-edge loop, because matched_edge_set is
created afresh for each loop rather than shared per call. -/
theorem matched_edge_reused_across_loops :
    feasible_with_traces stC5 0 7 =
      some (true, [(0, 3), (1, 4)], [(1, 3), (0, 4)]) ∧ (0 : Nat) ≠ 1 := by
  decide

theorem edge_exists_1_loop_spec (st : MatchState V E W F NT RT) (r0 : RT) (t0 : W) :
    ∀ (L : List F) (mset : Finset F) (b : Bool) (mset2 : Finset F) (acc : Option F),
      edge_exists_1_loop st r0 t0 mset L = some (b, mset2, acc) →
      (b = true → ∃ f, acc = some f ∧ f ∉ mset ∧ mset2 = insert f mset) ∧
      (b = false → mset2 = mset ∧ acc = none) := by
  intro L
  induction L with
  | nil =>
    intro mset b mset2 acc h
    simp only [edge_exists_1_loop, Option.some.injEq, Prod.mk.injEq] at h
    obtain ⟨hb, hm, ha⟩ := h
    constructor
    · intro hb2
      rw [← hb] at hb2
      exact absurd hb2 (by simp)
    · intro _
      exact ⟨hm.symm, ha.symm⟩
  | cons f rest ih =>
    intro mset b mset2 acc h
    by_cases hc : st.graph_1.tgt f = t0 ∧ f ∉ mset
    · simp only [edge_exists_1_loop, if_pos hc] at h
      cases hr : st.graph_1.get_relationship_ref f with
      | none =>
        rw [hr] at h
        simp at h
      | some r =>
        rw [hr] at h
        by_cases he : st.edge_comp r0 r
        · simp only [if_pos he, Option.some.injEq, Prod.mk.injEq] at h
          obtain ⟨hb, hm, ha⟩ := h
          constructor
          · intro _
            exact ⟨f, ha.symm, hc.2, hm.symm⟩
          · intro hb2
            rw [← hb] at hb2
            exact absurd hb2 (by simp)
        · simp only [if_neg he] at h
          exact ih mset b mset2 acc h
    · simp only [edge_exists_1_loop, if_neg hc] at h
      exact ih mset b mset2 acc h

theorem inc_counters_match_edge_0_spec (st : MatchState V E W F NT RT)
    (ib : Bool) (cnt : Nat × Nat × Nat) (v_new v_adj : V) (w_new : W) (e : E)
    (mset : Finset F) (ok : Bool) (cnt2 : Nat × Nat × Nat) (mset2 : Finset F)
    (acc : Option F)
    (h : inc_counters_match_edge_0 st ib cnt v_new v_adj w_new e mset =
      some (ok, cnt2, mset2, acc)) :
    (acc = none ∧ mset2 = mset) ∨
      (∃ f, acc = some f ∧ f ∉ mset ∧ mset2 = insert f mset) := by
  by_cases hcore : (st.base_state_0.in_core v_adj || v_new = v_adj) = true
  · simp only [inc_counters_match_edge_0, if_pos hcore] at h
    set res := if ib = true then
        edge_exists_1 st (if v_adj ≠ v_new then
          match st.base_state_0.core v_adj with
          | some ws => ws
          | none => w_new
        else w_new) w_new (st.graph_0.get_relationship_ref e) mset
      else edge_exists_1 st w_new (if v_adj ≠ v_new then
          match st.base_state_0.core v_adj with
          | some ws => ws
          | none => w_new
        else w_new) (st.graph_0.get_relationship_ref e) mset with hres
    cases hr : res with
    | none =>
      rw [hr] at h
      simp at h
    | some trip =>
      obtain ⟨b, m2, a⟩ := trip
      rw [hr] at h
      simp only [Option.some.injEq, Prod.mk.injEq] at h
      obtain ⟨hb, _, hm, ha⟩ := h
      have hsp : ∃ LL, edge_exists_1_loop st (st.graph_0.get_relationship_ref e)
          (if ib = true then w_new else (if v_adj ≠ v_new then
            match st.base_state_0.core v_adj with
            | some ws => ws
            | none => w_new
          else w_new)) mset LL = some (b, m2, a) := by
        by_cases hib : ib = true
        · refine ⟨st.graph_1.out_edges (if v_adj ≠ v_new then
            match st.base_state_0.core v_adj with
            | some ws => ws
            | none => w_new
          else w_new), ?_⟩
          rw [← hr, hres]
          simp [hib, edge_exists_1]
        · refine ⟨st.graph_1.out_edges w_new, ?_⟩
          rw [← hr, hres]
          simp [hib, edge_exists_1]
      obtain ⟨LL, hLL⟩ := hsp
      have hspec := edge_exists_1_loop_spec st _ _ LL mset b m2 a hLL
      cases b with
      | true =>
        obtain ⟨f, hf1, hf2, hf3⟩ := hspec.1 rfl
        exact Or.inr ⟨f, ha ▸ hf1, hf2, hm ▸ hf3⟩
      | false =>
        obtain ⟨hm2, ha2⟩ := hspec.2 rfl
        exact Or.inl ⟨ha ▸ ha2, hm ▸ hm2⟩
  · simp only [inc_counters_match_edge_0, if_neg hcore] at h
    simp only [Option.some.injEq, Prod.mk.injEq] at h
    obtain ⟨_, _, hm, ha⟩ := h
    exact Or.inl ⟨ha.symm, hm.symm⟩

theorem feas_loop_trace_spec (st : MatchState V E W F NT RT) (ib : Bool)
    (v : V) (w : W) :
    ∀ (L : List E) (cnt : Nat × Nat × Nat) (mset : Finset F) (tr : List (E × F))
      (b : Bool) (cnt2 : Nat × Nat × Nat) (mset2 : Finset F) (tr2 : List (E × F)),
      feas_loop st ib v w L cnt mset tr = some (b, cnt2, mset2, tr2) →
      (∀ p ∈ tr, p.2 ∈ mset) → (tr.map Prod.snd).Nodup →
      (∀ p ∈ tr2, p.2 ∈ mset2) ∧ (tr2.map Prod.snd).Nodup := by
  intro L
  induction L with
  | nil =>
    intro cnt mset tr b cnt2 mset2 tr2 h hmem hnd
    simp only [feas_loop, Option.some.injEq, Prod.mk.injEq] at h
    obtain ⟨_, _, hm, ht⟩ := h
    exact ⟨fun p hp => hm ▸ hmem p (ht ▸ hp), ht ▸ hnd⟩
  | cons e rest ih =>
    intro cnt mset tr b cnt2 mset2 tr2 h hmem hnd
    simp only [feas_loop] at h
    cases hinc : inc_counters_match_edge_0 st ib cnt v
        (if ib = true then st.graph_0.src e else st.graph_0.tgt e) w e mset with
    | none =>
      rw [hinc] at h
      simp at h
    | some quad =>
      obtain ⟨ok, cntm, msetm, acc⟩ := quad
      rw [hinc] at h
      dsimp only at h
      have hspec := inc_counters_match_edge_0_spec st ib cnt v _ w e mset ok cntm
        msetm acc hinc
      have hsub : ∀ x ∈ mset, x ∈ msetm := by
        rcases hspec with ⟨_, hm⟩ | ⟨f, _, _, hm⟩
        · intro x hx
          rw [hm]
          exact hx
        · intro x hx
          rw [hm]
          exact Finset.mem_insert_of_mem hx
      cases ok with
      | false =>
        rw [if_neg (by decide : ¬ (false = true))] at h
        simp only [Option.some.injEq, Prod.mk.injEq] at h
        obtain ⟨_, _, hm, ht⟩ := h
        refine ⟨fun p hp => hm ▸ hsub p.2 (hmem p (ht ▸ hp)), ht ▸ hnd⟩
      | true =>
        rw [if_pos rfl] at h
        rcases hspec with ⟨hacc, _⟩ | ⟨f, hacc, hfresh, hmm⟩
        · rw [hacc] at h
          simp only [List.append_nil] at h
          exact ih cntm msetm tr b cnt2 mset2 tr2 h
            (fun p hp => hsub p.2 (hmem p hp)) hnd
        · rw [hacc] at h
          refine ih cntm msetm (tr ++ [(e, f)]) b cnt2 mset2 tr2 h ?_ ?_
          · intro p hp
            rcases List.mem_append.mp hp with hp | hp
            · exact hsub p.2 (hmem p hp)
            · simp at hp
              rw [hp, hmm]
              exact Finset.mem_insert_self f mset
          · rw [List.map_append]
            rw [List.nodup_append]
            refine ⟨hnd, by simp, ?_⟩
            intro a ha hb
            simp at hb
            rw [List.mem_map] at ha
            obtain ⟨p, hp, hps⟩ := ha
            exact hfresh (by rw [← hb, ← hps]; exact hmem p hp)

/-- C5 amended: within one edge loop of a single feasible call (the in-edge
loop or the out-edge loop, each with its own fresh matched_edge_set), every
target relationship id is accepted for at most one pattern edge; across the
two loops the same target edge may be reused (see the counterexample). -/
theorem matched_edge_unique_per_loop (st : MatchState V E W F NT RT) (ib : Bool)
    (v : V) (w : W) (L : List E) (cnt : Nat × Nat × Nat) (b : Bool)
    (cnt2 : Nat × Nat × Nat) (mset2 : Finset F) (tr2 : List (E × F))
    (h : feas_loop st ib v w L cnt ∅ [] = some (b, cnt2, mset2, tr2)) :
    (tr2.map Prod.snd).Nodup ∧
      ∀ (e : E) (f : F) (e2 : E), (e, f) ∈ tr2 → (e2, f) ∈ tr2 → e = e2 := by
  have hspec := feas_loop_trace_spec st ib v w L cnt ∅ [] b cnt2 mset2 tr2 h
    (by simp) (by simp)
  refine ⟨hspec.2, ?_⟩
  intro e f e2 h1 h2
  have hinj := List.inj_on_of_nodup_map hspec.2
  have := hinj h1 h2 rfl
  exact congrArg Prod.fst this

/-- Witness for matched_edge_unique_per_loop: the in-edge loop of the stC5
call accepts target edges 3 and 4, which are distinct. -/
theorem matched_edge_unique_per_loop_witness :
    (([((0 : Nat), (3 : Nat)), (1, 4)]).map Prod.snd).Nodup ∧
      ∀ (e : Nat) (f : Nat) (e2 : Nat),
        (e, f) ∈ [((0 : Nat), (3 : Nat)), (1, 4)] →
        (e2, f) ∈ [((0 : Nat), (3 : Nat)), (1, 4)] → e = e2 :=
  matched_edge_unique_per_loop stC5 true 0 7 [0, 1] (0, 0, 0) true (0, 0, 0)
    (insert 4 (insert 3 ∅)) [(0, 3), (1, 4)] (by decide)

end Feasibility

/-- C10: popping an empty VF2 state (core_count = 0) is a no-op, for
pop_state_0/pop_state_1 and for the old BaseState::pop variant alike, so
core_count can never underflow however many extra pops are issued. -/
theorem pop_state_empty_noop (g : Graph V E) (g' : Graph V V) (s : BaseState V W)
    (s' : BaseState V V) (v0 : V) (w0 : V)
    (h : s.core_count = 0) (h' : s'.core_count = 0) :
    pop_state g s v0 = s ∧ pop_old g' s' w0 = s' := by
  constructor
  · simp [pop_state, h]
  · simp [pop_old, h']

/-- Witness for pop_state_empty_noop at a concrete empty state. -/
theorem pop_state_empty_noop_witness :
    pop_state (E := Nat) ⟨fun _ => [], fun _ => [], fun _ => 0, fun _ => 0⟩
        (BaseState.init (V := Nat) (W := Nat)) 0 = BaseState.init ∧
    pop_old ⟨fun _ => [], fun _ => [], fun _ => 0, fun _ => 0⟩
        (BaseState.init (V := Nat) (W := Nat)) 0 = BaseState.init :=
  pop_state_empty_noop _ _ _ _ 0 0 rfl rfl

end VF2

namespace Pool

theorem lookupA_insertA_self {α : Type} (l : List (Nat × α)) (k : Nat) (v : α) :
    lookupA (insertA l k v) k = some v := by
  induction l with
  | nil => simp [insertA, lookupA]
  | cons kv rest ih =>
    obtain ⟨k2, v2⟩ := kv
    by_cases hk : k = k2 <;> simp [insertA, lookupA, hk, ih]

theorem load_node_record_manager (p : NodeRecordPool) (id : Nat) :
    (p.load_node_record id).1.records_manager = p.records_manager := by
  cases h1 : lookupA p.records id with
  | some r => simp [NodeRecordPool.load_node_record, h1]
  | none =>
    cases h2 : p.records_manager.load id with
    | none => simp [NodeRecordPool.load_node_record, h1, h2]
    | some r => simp [NodeRecordPool.load_node_record, h1, h2]

theorem write_cell_manager (p : NodeRecordPool) (id idx : Nat) (c : CellRecord) :
    (p.write_cell id idx c).1.records_manager = p.records_manager := by
  cases hl : p.load_node_record id with
  | mk p2 o =>
    have hm : p2.records_manager = p.records_manager := by
      have := load_node_record_manager p id
      rw [hl] at this
      exact this
    cases o with
    | none => simp [NodeRecordPool.write_cell, hl, hm]
    | some r => simp [NodeRecordPool.write_cell, hl, hm]

theorem disable_cell_records_manager :
    ∀ (fuel : Nat) (loc : Nat × Nat) (p : NodeRecordPool),
      (p.disable_cell_records fuel loc).1.records_manager = p.records_manager := by
  intro fuel
  induction fuel with
  | zero => intro loc p; rfl
  | succ f ih =>
    intro loc p
    obtain ⟨a, b⟩ := loc
    cases a with
    | zero => rfl
    | succ n =>
      cases hl : p.load_node_record (n + 1) with
      | mk p2 o =>
        have hm : p2.records_manager = p.records_manager := by
          have := load_node_record_manager p (n + 1)
          rw [hl] at this
          exact this
        cases o with
        | none => simp [NodeRecordPool.disable_cell_records, hl, hm]
        | some nr =>
          cases hg : listGet nr.cells b with
          | none => simp [NodeRecordPool.disable_cell_records, hl, hg, hm]
          | some c =>
            simp only [NodeRecordPool.disable_cell_records, hl, hg]
            rw [ih _ p2, hm]

/-- C2 amended, part proved: every mutation performed through the pool's
cache (record loads, cell writes through load_node_record_mut, and
disable_cell_records chain walks) is buffered in the scoped pool: no such
sequence of operations changes the records manager (and hence the on-disk
state) before save_all_node_records is called. -/
theorem buffered_ops_preserve_manager (ops : List BufferedOp) :
    ∀ (p : NodeRecordPool),
      (runBufferedOps p ops).records_manager = p.records_manager := by
  induction ops with
  | nil => intro p; rfl
  | cons op rest ih =>
    intro p
    show (runBufferedOps (runBufferedOp p op) rest).records_manager = _
    rw [ih (runBufferedOp p op)]
    cases op with
    | load id => exact load_node_record_manager p id
    | writeCell id idx c => exact write_cell_manager p id idx c
    | disable fuel loc => exact disable_cell_records_manager fuel loc p

/-- Witness for buffered_ops_preserve_manager on a concrete pool and a
concrete operation sequence. -/
theorem buffered_ops_preserve_manager_witness :
    (runBufferedOps
        ⟨[], ⟨[(1, ⟨false, [⟨true, false, 0, 0⟩], 0⟩)], 2, 0, 0⟩⟩
        [BufferedOp.load 1, BufferedOp.writeCell 1 0 ⟨true, false, 3, 0⟩,
          BufferedOp.disable 2 (1, 0)]).records_manager =
      (⟨[], ⟨[(1, ⟨false, [⟨true, false, 0, 0⟩], 0⟩)], 2, 0, 0⟩⟩ :
        NodeRecordPool).records_manager :=
  buffered_ops_preserve_manager
    [BufferedOp.load 1, BufferedOp.writeCell 1 0 ⟨true, false, 3, 0⟩,
      BufferedOp.disable 2 (1, 0)]
    ⟨[], ⟨[(1, ⟨false, [⟨true, false, 0, 0⟩], 0⟩)], 2, 0, 0⟩⟩

/-- C2 counterexample: node-record creation and the header-pointer updates
are not buffered in the pool: each reaches the records manager immediately,
before any save_all, so an abort after them leaves the manager changed. -/
theorem unbuffered_mutations_reach_manager :
    (((⟨[], ⟨[], 1, 0, 0⟩⟩ : NodeRecordPool).create_node_record
        (BNodeRecord.new 1)).1.records_manager ≠
      (⟨[], ⟨[], 1, 0, 0⟩⟩ : NodeRecordPool).records_manager) ∧
    (((⟨[], ⟨[], 1, 0, 0⟩⟩ : NodeRecordPool).set_first_free_list_node_ptr
        7).records_manager ≠
      (⟨[], ⟨[], 1, 0, 0⟩⟩ : NodeRecordPool).records_manager) ∧
    (RecordsManager.set_root_node_ptr ⟨[], 1, 0, 0⟩ 9 ≠
      (⟨[], 1, 0, 0⟩ : RecordsManager)) := by
  decide

/-- C6: disable_cell_records walks the chain but mutates only a local copy
of each cell (CellRecord is Copy in the source), so after it returns Some
the cached cell record still has its ACTIVE flag set.  Here: a one-cell
chain at location (1, 0) whose cell is active; after the call the cached
record at node 1 is unchanged, its cell still active. -/
theorem disable_cell_records_leaves_cells_active :
    (((⟨[], ⟨[(1, ⟨false, [⟨true, false, 0, 0⟩], 0⟩)], 2, 0, 0⟩⟩ :
        NodeRecordPool).disable_cell_records 3 (1, 0)).2 = some ()) ∧
    (lookupA ((⟨[], ⟨[(1, ⟨false, [⟨true, false, 0, 0⟩], 0⟩)], 2, 0, 0⟩⟩ :
        NodeRecordPool).disable_cell_records 3 (1, 0)).1.records 1 =
      some ⟨false, [⟨true, false, 0, 0⟩], 0⟩) ∧
    ((⟨true, false, 0, 0⟩ : CellRecord).is_active = true) := by
  decide

/-- C7 counterexample: with a full head node 1 whose next-free-cells pointer
is the existing, non-full node 2, next() does not allocate a new
overflow-storage node; it promotes the existing node 2 to the head and
returns a slot inside it (the manager's store and next_id are unchanged). -/
theorem free_cell_iter_full_head_no_alloc :
    ((⟨[], ⟨[(1, ⟨true, [⟨true, false, 0, 0⟩], 2⟩),
        (2, ⟨true, [⟨false, false, 0, 0⟩], 0⟩)], 3, 0, 1⟩⟩ :
      NodeRecordPool).free_cell_iter_next 1 3).2 = some (2, 0) ∧
    ((⟨[], ⟨[(1, ⟨true, [⟨true, false, 0, 0⟩], 2⟩),
        (2, ⟨true, [⟨false, false, 0, 0⟩], 0⟩)], 3, 0, 1⟩⟩ :
      NodeRecordPool).free_cell_iter_next 1 3).1.records_manager.next_id = 3 ∧
    ((⟨[], ⟨[(1, ⟨true, [⟨true, false, 0, 0⟩], 2⟩),
        (2, ⟨true, [⟨false, false, 0, 0⟩], 0⟩)], 3, 0, 1⟩⟩ :
      NodeRecordPool).free_cell_iter_next 1 3).1.records_manager.store =
      [(1, ⟨true, [⟨true, false, 0, 0⟩], 2⟩),
        (2, ⟨true, [⟨false, false, 0, 0⟩], 0⟩)] ∧
    ((⟨[], ⟨[(1, ⟨true, [⟨true, false, 0, 0⟩], 2⟩),
        (2, ⟨true, [⟨false, false, 0, 0⟩], 0⟩)], 3, 0, 1⟩⟩ :
      NodeRecordPool).free_cell_iter_next 1 3).1.records_manager.header_free_list
      = 2 := by
  decide

theorem scan_free_cell_fresh (n : Nat) (h : 0 < n) :
    scan_free_cell (List.replicate n CellRecord.fresh) 0 = some 0 := by
  cases n with
  | zero => omega
  | succ m => simp [List.replicate_succ, scan_free_cell, CellRecord.is_active,
      CellRecord.fresh]

/-- C7 amended: next() allocates a new overflow-storage node, promotes it to
the head of the free-cell chain and returns slot 0 inside it exactly when
the records set is empty or the head pointer in the header is zero; a full
head instead advances the head pointer along the existing chain without
allocating (see the counterexample free_cell_iter_full_head_no_alloc). -/
theorem free_cell_iter_allocates_on_zero_head (nbCell fuel : Nat)
    (p : NodeRecordPool) (hn : 0 < nbCell) (hf : 0 < fuel)
    (h : p.records_manager.is_empty = true ∨
      p.records_manager.header_free_list = 0) :
    (p.free_cell_iter_next nbCell fuel).2 = some (p.records_manager.next_id, 0) ∧
    (p.free_cell_iter_next nbCell
      fuel).1.records_manager.header_free_list = p.records_manager.next_id ∧
    (p.free_cell_iter_next nbCell fuel).1.records_manager.load
      p.records_manager.next_id = some ((BNodeRecord.new nbCell).set_overflow_node)
    := by
  cases fuel with
  | zero => omega
  | succ f =>
    have hid : (p.create_overflow_node nbCell).2 = p.records_manager.next_id := rfl
    have hcreate : p.load_or_create_free_cells_overflow_node nbCell (f + 1) =
        (((p.create_overflow_node nbCell).1.set_first_free_list_node_ptr
          p.records_manager.next_id), some p.records_manager.next_id) := by
      by_cases he : p.records_manager.is_empty = true
      · simp [NodeRecordPool.load_or_create_free_cells_overflow_node, he, hid]
      · have hh : p.records_manager.header_free_list = 0 := by
          rcases h with h | h
          · exact absurd h he
          · exact h
        simp [NodeRecordPool.load_or_create_free_cells_overflow_node, he,
          NodeRecordPool.get_first_free_list_node_ptr, hh, hid]
    have hlook : lookupA ((p.create_overflow_node
        nbCell).1.set_first_free_list_node_ptr p.records_manager.next_id).records
        p.records_manager.next_id = some ((BNodeRecord.new nbCell).set_overflow_node)
        := by
      show lookupA (insertA p.records p.records_manager.next_id _) _ = _
      exact lookupA_insertA_self _ _ _
    have hload : ((p.create_overflow_node nbCell).1.set_first_free_list_node_ptr
        p.records_manager.next_id).load_node_record p.records_manager.next_id =
        (((p.create_overflow_node nbCell).1.set_first_free_list_node_ptr
          p.records_manager.next_id),
          some ((BNodeRecord.new nbCell).set_overflow_node)) := by
      simp [NodeRecordPool.load_node_record, hlook]
    have hscan : scan_free_cell ((BNodeRecord.new nbCell).set_overflow_node).cells 0
        = some 0 := scan_free_cell_fresh nbCell hn
    have hmain : p.free_cell_iter_next nbCell (f + 1) =
        (((p.create_overflow_node nbCell).1.set_first_free_list_node_ptr
          p.records_manager.next_id), some (p.records_manager.next_id, 0)) := by
      unfold NodeRecordPool.free_cell_iter_next
      rw [hcreate]
      dsimp only
      rw [hload]
      dsimp only
      rw [hscan]
    refine ⟨by rw [hmain], by rw [hmain]; rfl, ?_⟩
    rw [hmain]
    show lookupA (insertA p.records_manager.store p.records_manager.next_id _)
      p.records_manager.next_id = _
    exact lookupA_insertA_self _ _ _

/-- Witness for free_cell_iter_allocates_on_zero_head: a manager with one
record (so not empty) whose free-list head pointer is zero. -/
theorem free_cell_iter_allocates_on_zero_head_witness :
    ((⟨[], ⟨[(1, ⟨false, [⟨true, false, 0, 0⟩], 0⟩)], 2, 0, 0⟩⟩ :
      NodeRecordPool).free_cell_iter_next 1 3).2 =
      some ((⟨[], ⟨[(1, ⟨false, [⟨true, false, 0, 0⟩], 0⟩)], 2, 0, 0⟩⟩ :
        NodeRecordPool).records_manager.next_id, 0) ∧
    ((⟨[], ⟨[(1, ⟨false, [⟨true, false, 0, 0⟩], 0⟩)], 2, 0, 0⟩⟩ :
      NodeRecordPool).free_cell_iter_next 1 3).1.records_manager.header_free_list =
      (⟨[], ⟨[(1, ⟨false, [⟨true, false, 0, 0⟩], 0⟩)], 2, 0, 0⟩⟩ :
        NodeRecordPool).records_manager.next_id ∧
    ((⟨[], ⟨[(1, ⟨false, [⟨true, false, 0, 0⟩], 0⟩)], 2, 0, 0⟩⟩ :
      NodeRecordPool).free_cell_iter_next 1 3).1.records_manager.load
      (⟨[], ⟨[(1, ⟨false, [⟨true, false, 0, 0⟩], 0⟩)], 2, 0, 0⟩⟩ :
        NodeRecordPool).records_manager.next_id =
      some ((BNodeRecord.new 1).set_overflow_node) :=
  free_cell_iter_allocates_on_zero_head 1 3
    ⟨[], ⟨[(1, ⟨false, [⟨true, false, 0, 0⟩], 0⟩)], 2, 0, 0⟩⟩
    (by decide) (by decide) (Or.inr rfl)

end Pool

namespace Codec

theorem land_even_ne_one (h b : Nat) (hb : Nat.testBit b 0 = false) :
    h &&& b ≠ 1 := by
  intro hc
  have h1 : Nat.testBit (h &&& b) 0 = Nat.testBit 1 0 := by rw [hc]
  rw [Nat.testBit_land, hb] at h1
  simp at h1

/-- C9: the flag predicates of orange-db-core's CellRecord compare the
masked header byte to 1 while the masks are 0b1000_0000 and 0b0100_0000, so
has_overflow and is_active return false for every record, in particular
immediately after set_has_overflow and set_is_active; they do not test the
flag bit as the claim states. -/
theorem header_flag_predicates_always_false :
    (∀ c : CellRecord, c.has_overflow = false ∧ c.is_active = false) ∧
    (∀ c : CellRecord, c.set_has_overflow.has_overflow = false ∧
      c.set_is_active.is_active = false) := by
  have hmain : ∀ c : CellRecord, c.has_overflow = false ∧ c.is_active = false := by
    intro c
    constructor
    · have hne := land_even_ne_one c.header HAS_OVERFLOW_FLAG (by decide)
      simp [CellRecord.has_overflow]
      simpa using hne
    · have hne := land_even_ne_one c.header IS_ACTIVE (by decide)
      simp [CellRecord.is_active]
      simpa using hne
  exact ⟨hmain, fun c => ⟨(hmain c.set_has_overflow).1, (hmain c.set_is_active).2⟩⟩

theorem beBytes_length (w n : Nat) : (beBytes w n).length = w := by
  simp [beBytes]

theorem writeSlice_len_mismatch (dst src : List Nat) (start stop : Nat)
    (h : src.length ≠ stop - start) : writeSlice dst start stop src = none := by
  simp only [writeSlice, ite_eq_right_iff]
  intro hc
  exact absurd hc.2.2 h

/-- C8: CellRecord::to_bytes aborts for every cell record and every
KEY_SIZE: its final copy_from_slice writes node_ptr's 8 bytes into the
13-byte destination slice bytes[KEY_SIZE..] (a Rust panic), and the key
payload is never written at all; hence decode(encode(x)) == x holds for no
cell record, and BNodeRecord::to_bytes fails as soon as the node has one
cell slot. -/
theorem cell_codec_encode_fails :
    (∀ (ks : Nat) (c : CellRecord), CellRecord.to_bytes ks c = none) ∧
    (∀ (ks : Nat) (c : CellRecord),
      (CellRecord.to_bytes ks c).bind (CellRecord.from_bytes ks) ≠ some c) ∧
    (∀ (ks header ptr : Nat) (c : CellRecord) (rest : List CellRecord),
      BNodeRecord.to_bytes ks ⟨header, c :: rest, ptr⟩ = none) := by
  have hmain : ∀ (ks : Nat) (c : CellRecord), CellRecord.to_bytes ks c = none := by
    intro ks c
    have hw3 : ∀ b3 : List Nat,
        writeSlice b3 ks (13 + ks) (beBytes 8 c.node_ptr) = none := by
      intro b3
      apply writeSlice_len_mismatch
      rw [beBytes_length]
      omega
    unfold CellRecord.to_bytes
    cases h1 : writeSlice ((List.replicate (13 + ks) 0).set 0 c.header) 1 9
        (beBytes 8 c.node_ptr) with
    | none => rfl
    | some b2 =>
      dsimp only
      cases h2 : writeSlice b2 9 13 (beBytes 4 c.overflow_cell_ptr) with
      | none => rfl
      | some b3 =>
        dsimp only
        exact hw3 b3
  refine ⟨hmain, ?_, ?_⟩
  · intro ks c
    rw [hmain ks c]
    simp
  · intro ks header ptr c rest
    unfold BNodeRecord.to_bytes
    unfold writeCells
    rw [hmain ks c]

end Codec

namespace Proxy

theorem mapStable_refl (g : GraphProxy) : MapStable g g :=
  fun _ _ d h => ⟨d, h⟩

theorem mapStable_trans {g1 g2 g3 : GraphProxy} (h12 : MapStable g1 g2)
    (h23 : MapStable g2 g3) : MapStable g1 g3 := by
  intro sid pr d h
  obtain ⟨d2, h2⟩ := h12 sid pr d h
  exact h23 sid pr d2 h2

/-- A state change that leaves map_vertices intact and does not shrink the
vertex table preserves the dense-table invariant. -/
theorem inv_of_same_map {g g2 : GraphProxy} (hInv : Inv g)
    (hmap : g2.map_vertices = g.map_vertices)
    (hlen : g.vertices.length ≤ g2.vertices.length) : Inv g2 := by
  obtain ⟨hb, hi⟩ := hInv
  refine ⟨?_, ?_⟩
  · intro sid pr d h
    rw [hmap] at h
    exact lt_of_lt_of_le (hb sid pr d h) hlen
  · intro sid sid2 pr pr2 d d2 h h2 he
    rw [hmap] at h h2
    exact hi sid sid2 pr pr2 d d2 h h2 he

theorem mapStable_of_same_map {g g2 : GraphProxy}
    (hmap : g2.map_vertices = g.map_vertices) : MapStable g g2 :=
  fun _ _ d h => ⟨d, by rw [hmap]; exact h⟩

/-- Appending a vertex and binding a fresh store id to the new dense index
preserves the invariant and every existing binding. -/
theorem inv_fresh_insert {g g2 : GraphProxy} (hInv : Inv g) (id s2 : Nat)
    (d : DbVertexData)
    (hnone : g.map_vertices id = none)
    (hmap : g2.map_vertices =
      upd g.map_vertices id (some ((g.vertices.length, s2), d)))
    (hlen : g2.vertices.length = g.vertices.length + 1) :
    Inv g2 ∧ MapStable g g2 := by
  obtain ⟨hb, hi⟩ := hInv
  refine ⟨⟨?_, ?_⟩, ?_⟩
  · intro sid pr d2 h
    rw [hmap] at h
    unfold upd at h
    by_cases hc : sid = id
    · rw [if_pos hc] at h
      injection h with h2
      injection h2 with h3 h4
      subst h3
      rw [hlen]
      exact Nat.lt_succ_self _
    · rw [if_neg hc] at h
      exact lt_of_lt_of_le (hb sid pr d2 h) (by omega)
  · intro sid sid2 pr pr2 d1 d2 h h2 he
    rw [hmap] at h h2
    unfold upd at h h2
    by_cases hc : sid = id <;> by_cases hc2 : sid2 = id
    · rw [hc, hc2]
    · rw [if_pos hc] at h
      rw [if_neg hc2] at h2
      injection h with h3
      injection h3 with h4 h5
      subst h4
      exfalso
      have hlt := hb sid2 pr2 d2 h2
      dsimp only at he
      omega
    · rw [if_neg hc] at h
      rw [if_pos hc2] at h2
      injection h2 with h3
      injection h3 with h4 h5
      subst h4
      exfalso
      have hlt := hb sid pr d1 h
      dsimp only at he
      omega
    · rw [if_neg hc] at h
      rw [if_neg hc2] at h2
      exact hi sid sid2 pr pr2 d1 d2 h h2 he
  · intro sid pr d2 h
    have hne : sid ≠ id := by
      intro hq
      rw [hq, hnone] at h
      exact Option.noConfusion h
    refine ⟨d2, ?_⟩
    rw [hmap]
    unfold upd
    rw [if_neg hne]
    exact h

/-- Re-inserting an already-bound store id with the same proxy id preserves
the invariant and every binding. -/
theorem inv_reinsert {g g2 : GraphProxy} (hInv : Inv g) (id : Nat)
    (pr0 : Nat × Nat) (d0 d : DbVertexData)
    (hsome : g.map_vertices id = some (pr0, d0))
    (hmap : g2.map_vertices = upd g.map_vertices id (some (pr0, d)))
    (hlen : g.vertices.length ≤ g2.vertices.length) :
    Inv g2 ∧ MapStable g g2 := by
  obtain ⟨hb, hi⟩ := hInv
  refine ⟨⟨?_, ?_⟩, ?_⟩
  · intro sid pr d2 h
    rw [hmap] at h
    unfold upd at h
    by_cases hc : sid = id
    · rw [if_pos hc] at h
      injection h with h2
      injection h2 with h3 h4
      subst h3
      exact lt_of_lt_of_le (hb id pr0 d0 hsome) hlen
    · rw [if_neg hc] at h
      exact lt_of_lt_of_le (hb sid pr d2 h) hlen
  · intro sid sid2 pr pr2 d1 d2 h h2 he
    rw [hmap] at h h2
    unfold upd at h h2
    by_cases hc : sid = id <;> by_cases hc2 : sid2 = id
    · rw [hc, hc2]
    · rw [if_pos hc] at h
      rw [if_neg hc2] at h2
      injection h with h3
      injection h3 with h4 h5
      subst h4
      rw [hc]
      exact hi id sid2 pr0 pr2 d0 d2 hsome h2 he
    · rw [if_neg hc] at h
      rw [if_pos hc2] at h2
      injection h2 with h3
      injection h3 with h4 h5
      subst h4
      rw [hc2]
      exact hi sid id pr pr0 d1 d0 h hsome he
    · rw [if_neg hc] at h
      rw [if_neg hc2] at h2
      exact hi sid sid2 pr pr2 d1 d2 h h2 he
  · intro sid pr d2 h
    by_cases hc : sid = id
    · subst hc
      rw [hsome] at h
      injection h with h2
      injection h2 with h3 h4
      refine ⟨d, ?_⟩
      rw [hmap]
      unfold upd
      rw [if_pos rfl, h3]
    · refine ⟨d2, ?_⟩
      rw [hmap]
      unfold upd
      rw [if_neg hc]
      exact h

/-- get_or_retrieve_vertex_data preserves the invariant and existing dense
assignments. -/
theorem gorv_spec (g : GraphProxy) (id : Nat) (hInv : Inv g) :
    Inv (get_or_retrieve_vertex_data g id).1 ∧
      MapStable g (get_or_retrieve_vertex_data g id).1 := by
  unfold get_or_retrieve_vertex_data
  cases hm : g.map_vertices id with
  | some vd =>
    dsimp only
    cases hv : Pool.listGet g.vertices vd.1.1 with
    | some v => exact ⟨hInv, mapStable_refl g⟩
    | none => exact ⟨hInv, mapStable_refl g⟩
  | none =>
    dsimp only
    cases hr : g.repository.retrieve_vertex_data_by_id id with
    | none => exact ⟨hInv, mapStable_refl g⟩
    | some vdata =>
      exact inv_fresh_insert hInv id id vdata hm rfl (by simp [add_vertex])

theorem listModify_length {α : Type} (l : List α) (n : Nat) (f : α → α) :
    (listModify l n f).length = l.length := by
  induction l generalizing n with
  | nil => rfl
  | cons a rest ih =>
    cases n with
    | zero => rfl
    | succ m => simp [listModify, ih]

/-- The free function add_edge preserves the invariant and existing dense
assignments: it only adds vertices through get_or_retrieve_vertex_data and
patches vertex edge heads in place. -/
theorem add_edge_spec (g : GraphProxy) (dbe : DbEdgeData) (rid : Nat)
    (hInv : Inv g) :
    Inv (add_edge g dbe rid).1 ∧ MapStable g (add_edge g dbe rid).1 := by
  unfold add_edge
  cases hsrc : get_or_retrieve_vertex_data g dbe.source with
  | mk g1 o1 =>
    have h1 := gorv_spec g dbe.source hInv
    rw [hsrc] at h1
    cases o1 with
    | none => exact h1
    | some sd =>
      dsimp only
      cases htgt : get_or_retrieve_vertex_data g1 dbe.target with
      | mk g2 o2 =>
        have h2 := gorv_spec g1 dbe.target h1.1
        rw [htgt] at h2
        cases o2 with
        | none => exact ⟨h2.1, mapStable_trans h1.2 h2.2⟩
        | some td =>
          dsimp only
          refine ⟨inv_of_same_map h2.1 rfl ?_,
            mapStable_trans h1.2 (mapStable_trans h2.2 (mapStable_of_same_map rfl))⟩
          rw [listModify_length, listModify_length]

/-- GraphProxy::add_edge preserves the invariant and existing dense
assignments. -/
theorem proxy_add_edge_spec (g : GraphProxy) (rid : Nat) (hInv : Inv g) :
    Inv (proxy_add_edge g rid).1 ∧ MapStable g (proxy_add_edge g rid).1 := by
  unfold proxy_add_edge
  cases hr : g.repository.retrieve_edge_data_by_id rid with
  | none => exact ⟨hInv, mapStable_refl g⟩
  | some dbe => exact add_edge_spec g dbe rid hInv

theorem add_node_map_vertices (g : GraphProxy) (sid : Nat) (vd : DbVertexData)
    (rv : Bool) : (add_node g sid vd rv).1.map_vertices = g.map_vertices := by
  unfold add_node add_vertex
  cases rv with
  | true => rfl
  | false => cases hm : g.map_vertices sid <;> rfl

theorem add_node_result_true (g : GraphProxy) (sid : Nat) (vd : DbVertexData) :
    (add_node g sid vd true).2 = some (g.vertices.length, sid) ∧
      (add_node g sid vd true).1.vertices.length = g.vertices.length + 1 := by
  unfold add_node add_vertex
  exact ⟨rfl, by simp⟩

theorem add_node_result_false (g : GraphProxy) (sid : Nat) (vd : DbVertexData) :
    (add_node g sid vd false).2 = (g.map_vertices sid).map (fun p => p.1) ∧
      (add_node g sid vd false).1.vertices = g.vertices := by
  unfold add_node
  cases hm : g.map_vertices sid <;> simp

/-- get_node_ref preserves the invariant and existing dense assignments:
a fresh store id gets the next dense index, a known one is re-inserted with
its original proxy id. -/
theorem get_node_ref_spec (g : GraphProxy) (id : Nat) (hInv : Inv g) :
    Inv (get_node_ref g id).1 ∧ MapStable g (get_node_ref g id).1 := by
  unfold get_node_ref
  cases hm : g.map_vertices id with
  | none =>
    simp only [Option.isSome_none, Bool.not_false]
    rw [if_pos trivial]
    cases hr : g.repository.retrieve_node_by_id id with
    | none => exact ⟨hInv, mapStable_refl g⟩
    | some vdata =>
      dsimp only
      cases han : add_node g id vdata true with
      | mk g1 o =>
        have hmv := add_node_map_vertices g id vdata true
        have hrt := add_node_result_true g id vdata
        rw [han] at hmv hrt
        cases o with
        | none =>
          dsimp only at hrt
          exact absurd hrt.1 (by simp)
        | some pid =>
          dsimp only at hmv hrt
          have h5 := hrt.1
          injection h5 with hpid
          dsimp only
          refine inv_fresh_insert hInv id id vdata hm ?_ ?_
          · dsimp only
            rw [hmv, hpid]
          · dsimp only
            exact hrt.2
  | some nd =>
    simp only [Option.isSome_some, Bool.not_true]
    by_cases hlt : nd.1.1 < g.nodes.length
    · rw [if_pos hlt]
      cases hn : Pool.listGet g.nodes nd.1.1 with
      | some node =>
        cases node with
        | some n =>
          dsimp only
          rw [if_neg (by decide : ¬ ((false : Bool) = true))]
          exact ⟨hInv, mapStable_refl g⟩
        | none =>
          dsimp only
          rw [if_pos rfl]
          cases hr : g.repository.retrieve_node_by_id id with
          | none => exact ⟨hInv, mapStable_refl g⟩
          | some vdata =>
            dsimp only
            cases han : add_node g id vdata false with
            | mk g1 o =>
              have hmv := add_node_map_vertices g id vdata false
              have hrf := add_node_result_false g id vdata
              rw [han] at hmv hrf
              cases o with
              | none =>
                dsimp only at hrf
                rw [hm] at hrf
                exact absurd hrf.1 (by simp)
              | some pid =>
                dsimp only at hmv hrf
                rw [hm] at hrf
                have h5 := hrf.1
                simp only [Option.map_some'] at h5
                injection h5 with hpid
                dsimp only
                refine inv_reinsert hInv id nd.1 nd.2 vdata ?_ ?_ ?_
                · rw [hm]
                · dsimp only
                  rw [hmv, hpid]
                · dsimp only
                  rw [hrf.2]
      | none =>
        dsimp only
        rw [if_pos rfl]
        cases hr : g.repository.retrieve_node_by_id id with
        | none => exact ⟨hInv, mapStable_refl g⟩
        | some vdata =>
          dsimp only
          cases han : add_node g id vdata false with
          | mk g1 o =>
            have hmv := add_node_map_vertices g id vdata false
            have hrf := add_node_result_false g id vdata
            rw [han] at hmv hrf
            cases o with
            | none =>
              dsimp only at hrf
              rw [hm] at hrf
              exact absurd hrf.1 (by simp)
            | some pid =>
              dsimp only at hmv hrf
              rw [hm] at hrf
              have h5 := hrf.1
              simp only [Option.map_some'] at h5
              injection h5 with hpid
              dsimp only
              refine inv_reinsert hInv id nd.1 nd.2 vdata ?_ ?_ ?_
              · rw [hm]
              · dsimp only
                rw [hmv, hpid]
              · dsimp only
                rw [hrf.2]
    · rw [if_neg hlt]
      dsimp only
      rw [if_pos rfl]
      cases hr : g.repository.retrieve_node_by_id id with
      | none => exact ⟨hInv, mapStable_refl g⟩
      | some vdata =>
        dsimp only
        cases han : add_node g id vdata false with
        | mk g1 o =>
          have hmv := add_node_map_vertices g id vdata false
          have hrf := add_node_result_false g id vdata
          rw [han] at hmv hrf
          cases o with
          | none =>
            dsimp only at hrf
            rw [hm] at hrf
            exact absurd hrf.1 (by simp)
          | some pid =>
            dsimp only at hmv hrf
            rw [hm] at hrf
            have h5 := hrf.1
            simp only [Option.map_some'] at h5
            injection h5 with hpid
            dsimp only
            refine inv_reinsert hInv id nd.1 nd.2 vdata ?_ ?_ ?_
            · rw [hm]
            · dsimp only
              rw [hmv, hpid]
            · dsimp only
              rw [hrf.2]

/-- add_relationship preserves the invariant and existing dense vertex
assignments: it touches the vertex tables only through add_edge. -/
theorem add_relationship_spec (g : GraphProxy) (rid : Nat) (re : Bool)
    (hInv : Inv g) :
    Inv (add_relationship g rid re).1 ∧ MapStable g (add_relationship g rid re).1 := by
  unfold add_relationship
  cases re with
  | true =>
    dsimp only
    cases hp : proxy_add_edge g rid with
    | mk g1 o =>
      have h1 := proxy_add_edge_spec g rid hInv
      rw [hp] at h1
      cases o with
      | none => exact h1
      | some pid =>
        exact ⟨inv_of_same_map h1.1 rfl (le_refl _),
          mapStable_trans h1.2 (mapStable_of_same_map rfl)⟩
  | false =>
    dsimp only
    cases hm : g.map_edges rid with
    | none => exact ⟨hInv, mapStable_refl g⟩
    | some rd =>
      dsimp only
      exact ⟨inv_of_same_map hInv rfl (le_refl _), mapStable_of_same_map rfl⟩

/-- get_relationship_ref preserves the invariant and existing dense vertex
assignments. -/
theorem get_relationship_ref_spec (g : GraphProxy) (id : Nat) (hInv : Inv g) :
    Inv (get_relationship_ref g id).1 ∧ MapStable g (get_relationship_ref g id).1 := by
  unfold get_relationship_ref
  cases hm : g.map_edges id with
  | none =>
    simp only [Option.isSome_none, Bool.not_false]
    rw [if_pos trivial]
    cases hr : g.repository.retrieve_relationship_by_id id with
    | none => exact ⟨hInv, mapStable_refl g⟩
    | some dbe =>
      dsimp only
      cases hs : get_or_retrieve_vertex_data g dbe.source with
      | mk g1 o1 =>
        have h1 := gorv_spec g dbe.source hInv
        rw [hs] at h1
        cases o1 with
        | none => exact h1
        | some sd =>
          dsimp only
          cases ht : get_or_retrieve_vertex_data g1 dbe.target with
          | mk g2 o2 =>
            have h2 := gorv_spec g1 dbe.target h1.1
            rw [ht] at h2
            cases o2 with
            | none => exact ⟨h2.1, mapStable_trans h1.2 h2.2⟩
            | some td =>
              dsimp only
              cases ha : add_relationship g2 id true with
              | mk g3 o3 =>
                have h3 := add_relationship_spec g2 id true h2.1
                rw [ha] at h3
                have hs12 := mapStable_trans h1.2 h2.2
                cases o3 with
                | none => exact ⟨h3.1, mapStable_trans hs12 h3.2⟩
                | some pid =>
                  dsimp only
                  exact ⟨inv_of_same_map h3.1 rfl (le_refl _),
                    mapStable_trans hs12
                      (mapStable_trans h3.2 (mapStable_of_same_map rfl))⟩
  | some rd =>
    simp only [Option.isSome_some, Bool.not_true]
    by_cases hlt : rd.1.1 < g.relationships.length
    · rw [if_pos hlt]
      cases hn : Pool.listGet g.relationships rd.1.1 with
      | some node =>
        cases node with
        | some n =>
          dsimp only
          rw [if_neg (by decide : ¬ ((false : Bool) = true))]
          exact ⟨hInv, mapStable_refl g⟩
        | none =>
          dsimp only
          rw [if_pos rfl]
          cases hr : g.repository.retrieve_relationship_by_id id with
          | none => exact ⟨hInv, mapStable_refl g⟩
          | some dbe =>
            dsimp only
            cases hs : get_or_retrieve_vertex_data g dbe.source with
            | mk g1 o1 =>
              have h1 := gorv_spec g dbe.source hInv
              rw [hs] at h1
              cases o1 with
              | none => exact h1
              | some sd =>
                dsimp only
                cases ht : get_or_retrieve_vertex_data g1 dbe.target with
                | mk g2 o2 =>
                  have h2 := gorv_spec g1 dbe.target h1.1
                  rw [ht] at h2
                  cases o2 with
                  | none => exact ⟨h2.1, mapStable_trans h1.2 h2.2⟩
                  | some td =>
                    dsimp only
                    cases ha : add_relationship g2 id false with
                    | mk g3 o3 =>
                      have h3 := add_relationship_spec g2 id false h2.1
                      rw [ha] at h3
                      have hs12 := mapStable_trans h1.2 h2.2
                      cases o3 with
                      | none => exact ⟨h3.1, mapStable_trans hs12 h3.2⟩
                      | some pid =>
                        dsimp only
                        exact ⟨inv_of_same_map h3.1 rfl (le_refl _),
                          mapStable_trans hs12
                            (mapStable_trans h3.2 (mapStable_of_same_map rfl))⟩
      | none =>
        dsimp only
        rw [if_pos rfl]
        cases hr : g.repository.retrieve_relationship_by_id id with
        | none => exact ⟨hInv, mapStable_refl g⟩
        | some dbe =>
          dsimp only
          cases hs : get_or_retrieve_vertex_data g dbe.source with
          | mk g1 o1 =>
            have h1 := gorv_spec g dbe.source hInv
            rw [hs] at h1
            cases o1 with
            | none => exact h1
            | some sd =>
              dsimp only
              cases ht : get_or_retrieve_vertex_data g1 dbe.target with
              | mk g2 o2 =>
                have h2 := gorv_spec g1 dbe.target h1.1
                rw [ht] at h2
                cases o2 with
                | none => exact ⟨h2.1, mapStable_trans h1.2 h2.2⟩
                | some td =>
                  dsimp only
                  cases ha : add_relationship g2 id false with
                  | mk g3 o3 =>
                    have h3 := add_relationship_spec g2 id false h2.1
                    rw [ha] at h3
                    have hs12 := mapStable_trans h1.2 h2.2
                    cases o3 with
                    | none => exact ⟨h3.1, mapStable_trans hs12 h3.2⟩
                    | some pid =>
                      dsimp only
                      exact ⟨inv_of_same_map h3.1 rfl (le_refl _),
                        mapStable_trans hs12
                          (mapStable_trans h3.2 (mapStable_of_same_map rfl))⟩
    · rw [if_neg hlt]
      dsimp only
      rw [if_pos rfl]
      cases hr : g.repository.retrieve_relationship_by_id id with
      | none => exact ⟨hInv, mapStable_refl g⟩
      | some dbe =>
        dsimp only
        cases hs : get_or_retrieve_vertex_data g dbe.source with
        | mk g1 o1 =>
          have h1 := gorv_spec g dbe.source hInv
          rw [hs] at h1
          cases o1 with
          | none => exact h1
          | some sd =>
            dsimp only
            cases ht : get_or_retrieve_vertex_data g1 dbe.target with
            | mk g2 o2 =>
              have h2 := gorv_spec g1 dbe.target h1.1
              rw [ht] at h2
              cases o2 with
              | none => exact ⟨h2.1, mapStable_trans h1.2 h2.2⟩
              | some td =>
                dsimp only
                cases ha : add_relationship g2 id false with
                | mk g3 o3 =>
                  have h3 := add_relationship_spec g2 id false h2.1
                  rw [ha] at h3
                  have hs12 := mapStable_trans h1.2 h2.2
                  cases o3 with
                  | none => exact ⟨h3.1, mapStable_trans hs12 h3.2⟩
                  | some pid =>
                    dsimp only
                    exact ⟨inv_of_same_map h3.1 rfl (le_refl _),
                      mapStable_trans hs12
                        (mapStable_trans h3.2 (mapStable_of_same_map rfl))⟩

/-- An iterator step preserves the invariant and existing dense vertex
assignments. -/
theorem iter_next_spec (b : Bool) (g : GraphProxy) (cur : Nat) (hInv : Inv g) :
    Inv (iter_next b g cur).1 ∧ MapStable g (iter_next b g cur).1 := by
  unfold iter_next
  cases hm : g.map_edges cur with
  | some rd =>
    dsimp only
    cases he : Pool.listGet g.edges rd.1.1 with
    | none => exact ⟨hInv, mapStable_refl g⟩
    | some e => exact ⟨hInv, mapStable_refl g⟩
  | none =>
    dsimp only
    cases hr : g.repository.retrieve_edge_data_by_id cur with
    | none => exact ⟨hInv, mapStable_refl g⟩
    | some ed =>
      dsimp only
      cases ha : add_edge g ed cur with
      | mk g1 o =>
        have h1 := add_edge_spec g ed cur hInv
        rw [ha] at h1
        cases o with
        | none => exact h1
        | some pid =>
          dsimp only
          have hend : Inv ({ g1 with
                map_edges := upd g1.map_edges cur (some (pid, ed)) } : GraphProxy) ∧
              MapStable g { g1 with
                map_edges := upd g1.map_edges cur (some (pid, ed)) } :=
            ⟨inv_of_same_map h1.1 rfl (le_refl _),
              mapStable_trans h1.2 (mapStable_of_same_map rfl)⟩
          cases hg : Pool.listGet g1.edges pid.1 with
          | none => exact hend
          | some e => exact hend

theorem runProxyOp_spec (g : GraphProxy) (op : ProxyOp) (hInv : Inv g) :
    Inv (runProxyOp g op) ∧ MapStable g (runProxyOp g op) := by
  cases op with
  | getNode sid => exact get_node_ref_spec g sid hInv
  | getRel sid => exact get_relationship_ref_spec g sid hInv
  | iterIn cur => exact iter_next_spec true g cur hInv
  | iterOut cur => exact iter_next_spec false g cur hInv

theorem runProxyOps_spec (ops : List ProxyOp) (g : GraphProxy) (hInv : Inv g) :
    Inv (runProxyOps g ops) ∧ MapStable g (runProxyOps g ops) := by
  induction ops generalizing g with
  | nil => exact ⟨hInv, mapStable_refl g⟩
  | cons op rest ih =>
    have h1 := runProxyOp_spec g op hInv
    have h2 := ih (runProxyOp g op) h1.1
    exact ⟨h2.1, mapStable_trans h1.2 h2.2⟩

theorem denseOf_stable {g g2 : GraphProxy} (hs : MapStable g g2) (sid m : Nat)
    (h : DenseOf g sid = some m) : DenseOf g2 sid = some m := by
  unfold DenseOf at h ⊢
  cases hm : g.map_vertices sid with
  | none =>
    rw [hm] at h
    exact absurd h (by simp)
  | some p =>
    rw [hm] at h
    simp only [Option.map_some'] at h
    obtain ⟨d2, h2⟩ := hs sid p.1 p.2 (by rw [hm])
    rw [h2]
    simpa using h

theorem denseOf_inj {g : GraphProxy} (hInv : Inv g) (sid sid2 m : Nat)
    (h : DenseOf g sid = some m) (h2 : DenseOf g sid2 = some m) : sid = sid2 := by
  unfold DenseOf at h h2
  cases hm : g.map_vertices sid with
  | none =>
    rw [hm] at h
    exact absurd h (by simp)
  | some p =>
    cases hm2 : g.map_vertices sid2 with
    | none =>
      rw [hm2] at h2
      exact absurd h2 (by simp)
    | some q =>
      rw [hm] at h
      rw [hm2] at h2
      simp only [Option.map_some', Option.some.injEq] at h h2
      exact hInv.2 sid sid2 p.1 q.1 p.2 q.2 (by rw [hm]) (by rw [hm2]) (by rw [h, h2])

/-- C3 (amended part): within one GraphProxy lifetime, over any sequence of
get_node_ref, get_relationship_ref and iterator steps from a state
satisfying the dense-table invariant (as a fresh proxy does), the dense
index assigned to a store id never changes once assigned, and the
assignment is injective. -/
theorem dense_of_stable_and_injective (g : GraphProxy) (ops : List ProxyOp)
    (hInv : Inv g) :
    (∀ sid m, DenseOf g sid = some m → DenseOf (runProxyOps g ops) sid = some m) ∧
    (∀ sid sid2 m, DenseOf (runProxyOps g ops) sid = some m →
      DenseOf (runProxyOps g ops) sid2 = some m → sid = sid2) := by
  obtain ⟨hI, hS⟩ := runProxyOps_spec ops g hInv
  exact ⟨fun sid m h => denseOf_stable hS sid m h,
    fun sid sid2 m h h2 => denseOf_inj hI sid sid2 m h h2⟩

/-- Witness: a fresh proxy over the two-node repository satisfies the
invariant, so the amended C3 property holds along the concrete trace
getRel 10; getNode 2; getNode 1. -/
theorem dense_of_stable_and_injective_witness :
    (∀ sid m, DenseOf (GraphProxy.init repoC3) sid = some m →
      DenseOf (runProxyOps (GraphProxy.init repoC3)
        [ProxyOp.getRel 10, ProxyOp.getNode 2, ProxyOp.getNode 1]) sid = some m) ∧
    (∀ sid sid2 m,
      DenseOf (runProxyOps (GraphProxy.init repoC3)
        [ProxyOp.getRel 10, ProxyOp.getNode 2, ProxyOp.getNode 1]) sid = some m →
      DenseOf (runProxyOps (GraphProxy.init repoC3)
        [ProxyOp.getRel 10, ProxyOp.getNode 2, ProxyOp.getNode 1]) sid2 = some m →
      sid = sid2) :=
  dense_of_stable_and_injective (GraphProxy.init repoC3)
    [ProxyOp.getRel 10, ProxyOp.getNode 2, ProxyOp.getNode 1]
    ⟨fun _ _ _ h => Option.noConfusion h,
      fun _ _ _ _ _ _ h _ _ => Option.noConfusion h⟩

/-- C3 (refuted clause): the claim also asserts that the dense node-vector
entry of every previously loaded vertex still holds that vertex after any
later load.  After getRel 10 and getNode 2 over the two-node repository,
vertex 2 has dense index 1 and nodes is [none, some 2]; the later
getNode 1 runs add_node, whose Vec::insert at index 0 shifts the vector to
[some 1, none, some 2], so entry 1 no longer holds node 2 although
dense_of(2) is still 1. -/
theorem dense_entry_shifted_counterexample :
    DenseOf (runProxyOps (GraphProxy.init repoC3)
      [ProxyOp.getRel 10, ProxyOp.getNode 2]) 2 = some 1 ∧
    (runProxyOps (GraphProxy.init repoC3)
      [ProxyOp.getRel 10, ProxyOp.getNode 2]).nodes = [none, some 2] ∧
    DenseOf (runProxyOps (GraphProxy.init repoC3)
      [ProxyOp.getRel 10, ProxyOp.getNode 2, ProxyOp.getNode 1]) 2 = some 1 ∧
    (runProxyOps (GraphProxy.init repoC3)
      [ProxyOp.getRel 10, ProxyOp.getNode 2, ProxyOp.getNode 1]).nodes =
      [some 1, none, some 2] := by
  refine ⟨?_, ?_, ?_, ?_⟩ <;> rfl

end Proxy

end S2P
